import Mathlib

/-!
Verification of the expense-report core of `sheets_extractor.py`
(column inference, locale-aware parsing, monthly aggregation and the
contract-projection engine).  Spreadsheet rows are modelled as
association lists from header strings to cell strings; monetary values
are modelled as exact rationals, and Python dicts (insertion-ordered)
as association lists updated in place.
-/

namespace Despesas

/- Concrete witnesses evaluate the pipeline inside `decide`; the
arithmetic of `Rat` must therefore be reducible. -/
attribute [local semireducible] Rat.mul Rat.add Rat.inv Rat.sub Rat.ofScientific

/-! ## Characters and strings -/

/-- Whitespace characters recognised by `str.strip()` (ASCII fragment). -/
def isSpaceC (c : Char) : Bool :=
  c = ' ' || c = '\t' || c = '\n' || c = '\r' || c = '\x0b' || c = '\x0c'

/-- `str.lower()` restricted to ASCII plus the accented letters the
normalisation tables of the source handle. -/
def toLowerU (c : Char) : Char :=
  match c with
  | 'Á' => 'á' | 'À' => 'à' | 'Ã' => 'ã' | 'Â' => 'â'
  | 'É' => 'é' | 'Ê' => 'ê' | 'Í' => 'í'
  | 'Ó' => 'ó' | 'Õ' => 'õ' | 'Ô' => 'ô' | 'Ú' => 'ú'
  | 'Ç' => 'ç' | 'Ý' => 'ý' | 'Ş' => 'ş' | 'Ñ' => 'ñ'
  | _ => c.toLower

/-- Accent replacement table used by `_find_column_by_keywords` and the
column-detection `normalize` helpers. -/
def foldA (c : Char) : Char :=
  match c with
  | 'á' => 'a' | 'à' => 'a' | 'ã' => 'a' | 'â' => 'a'
  | 'é' => 'e' | 'ê' => 'e' | 'í' => 'i'
  | 'ó' => 'o' | 'õ' => 'o' | 'ô' => 'o' | 'ú' => 'u'
  | 'ç' => 'c' | 'ý' => 'y'
  | _ => c

/-- Accent replacement table of `_extract_month_year_from_date.normalize`,
which additionally maps `ş` and `ñ`. -/
def foldB (c : Char) : Char :=
  match c with
  | 'ş' => 's' | 'ñ' => 'n'
  | _ => foldA c

/-- `str.strip()` on a character list. -/
def trimList (cs : List Char) : List Char :=
  ((cs.dropWhile isSpaceC).reverse.dropWhile isSpaceC).reverse

/-- `str.strip()` on a string. -/
def trimS (s : String) : String := String.mk (trimList s.toList)

/-- `.lower()` on a string (via `toLowerU`). -/
def lowerStr (s : String) : String := String.mk (s.toList.map toLowerU)

/-- `normalize` of `_find_column_by_keywords`: lowercase and fold accents
(no strip). -/
def normKw (s : String) : List Char := s.toList.map (fun c => foldA (toLowerU c))

/-- `normalize` of the column detection code: `lower().strip()` then fold
accents (table without `ş`/`ñ`). -/
def normCol (s : String) : List Char := (trimList (s.toList.map toLowerU)).map foldA

/-- `normalize` of `_extract_month_year_from_date`: `lower().strip()` then
fold accents (table with `ş`/`ñ`). -/
def normDate (s : String) : List Char := (trimList (s.toList.map toLowerU)).map foldB

/-- Python substring test `needle in hay` on character lists. -/
def isSubL (n : List Char) : List Char → Bool
  | [] => n.isEmpty
  | c :: t => n.isPrefixOf (c :: t) || isSubL n t

/-! ## Numeric value normalizer (`_extract_expense_value`) -/

/-- Placeholder tokens that normalise to `0.0`. -/
def placeholderTokens : List String := ["-", "", "Por Consumo", "N/A", "n/a"]

/-- `re.search(r"\(\s*[^\)]*\)", s)` succeeds iff some `'('` is followed,
further right, by a `')'` (the first such `'('` suffices). -/
def hasParenPair (cs : List Char) : Bool :=
  (cs.dropWhile (fun c => c ≠ '(')).contains ')'

/-- `re.sub(r'[^\d,.]', '', s.replace('-', ''))`: drop minus signs, keep
only (ASCII) digits, commas and dots. -/
def cleanChars (cs : List Char) : List Char :=
  (cs.filter (fun c => c ≠ '-')).filter (fun c => c.isDigit || c = ',' || c = '.')

/-- Decimal value of a digit string (most-significant digit first). -/
def natOfDigits : List Char → ℕ
  | [] => 0
  | c :: t => (c.toNat - 48) * 10 ^ t.length + natOfDigits t

/-- Python `float()` on the cleaned strings reachable here (digits and
dots only): at most one dot and at least one digit, else failure. -/
def parseDecimalQ (cs : List Char) : Option ℚ :=
  match cs.splitOn '.' with
  | [d] => if d ≠ [] && d.all Char.isDigit then some ((natOfDigits d : ℚ)) else none
  | [a, b] =>
      if (a ≠ [] || b ≠ []) && (a ++ b).all Char.isDigit then
        some ((natOfDigits a : ℚ) + (natOfDigits b : ℚ) / 10 ^ b.length)
      else none
  | _ => none

/-- `_extract_expense_value`: total best-effort Brazilian-format number
parser; every failure path yields `0`. -/
def extract_expense_value (value : String) : ℚ :=
  if trimS value ∈ placeholderTokens then 0
  else
    let s := (trimS value).toList
    let isNeg := hasParenPair s || s.head? = some '-' || s.getLast? = some '-'
    let clean := cleanChars s
    if clean = [] || clean = ['-'] || clean = ['.'] || clean = [','] then 0
    else
      let hasC := clean.contains ','
      let hasD := clean.contains '.'
      let cv :=
        if hasC && hasD then
          (clean.filter (fun c => c ≠ '.')).map (fun c => if c = ',' then '.' else c)
        else if hasC then
          let parts := clean.splitOn ','
          if parts.length = 2 && (parts.getD 1 []).length ≤ 2 then
            clean.map (fun c => if c = ',' then '.' else c)
          else clean.filter (fun c => c ≠ ',')
        else clean
      match parseDecimalQ cv with
      | none => 0
      | some q => if isNeg then -q else q

/-! ## Date normalizer (`_extract_month_year_from_date`) -/

/-- Month-name table (PT/EN abbreviations and full names).  The Python
dict literal repeats some keys with identical values; the deduplicated
association is recorded here. -/
def monthPairs : List (String × String) :=
  [("jan", "01"), ("fev", "02"), ("mar", "03"), ("abr", "04"), ("mai", "05"),
   ("jun", "06"), ("jul", "07"), ("ago", "08"), ("set", "09"), ("out", "10"),
   ("nov", "11"), ("dez", "12"),
   ("janeiro", "01"), ("fevereiro", "02"), ("marco", "03"), ("março", "03"),
   ("abril", "04"), ("maio", "05"), ("junho", "06"), ("julho", "07"),
   ("agosto", "08"), ("setembro", "09"), ("outubro", "10"), ("novembro", "11"),
   ("dezembro", "12"),
   ("feb", "02"), ("apr", "04"), ("may", "05"), ("aug", "08"), ("sep", "09"),
   ("sept", "09"), ("oct", "10"), ("dec", "12"),
   ("january", "01"), ("february", "02"), ("march", "03"), ("april", "04"),
   ("june", "06"), ("july", "07"), ("august", "08"), ("september", "09"),
   ("october", "10"), ("november", "11"), ("december", "12")]

/-- `month_map.get` on a matched name. -/
def lookupMonthName (m : List Char) : Option String :=
  (monthPairs.find? (fun p => p.1.toList == m)).map (fun p => p.2)

/-- `mon_key = mon if mon in month_map else mon[:3]` then lookup. -/
def monKeyLookup (m : List Char) : Option String :=
  match lookupMonthName m with
  | some v => some v
  | none => lookupMonthName (m.take 3)

/-- Separator class (dash, slash or whitespace) of the month-name patterns. -/
def isSepC (c : Char) : Bool := c = '-' || c = '/' || isSpaceC c

/-- ASCII `[a-z]`. -/
def isLowerAZ (c : Char) : Bool := 'a' ≤ c && c ≤ 'z'

/-- `re.search`: try a pattern matcher at every start position, leftmost
match wins. -/
def searchOpt {β : Type} (f : List Char → Option β) : List Char → Option β
  | [] => f []
  | c :: t =>
    match f (c :: t) with
    | some r => some r
    | none => searchOpt f t

/-- Match a run of 3+ lowercase letters, then 1+ separators, then 4 digits,
at the current position, returning the month-name and year captures. -/
def tryNameYearAt (cs : List Char) : Option (List Char × List Char) :=
  let letters := cs.takeWhile isLowerAZ
  if letters.length < 3 then none
  else
    let rest := cs.drop letters.length
    let seps := rest.takeWhile isSepC
    if seps.isEmpty then none
    else
      let y := (rest.drop seps.length).take 4
      if y.length = 4 && y.all Char.isDigit then some (letters, y) else none

/-- Match 4 digits, then 1+ separators, then a run of 3+ lowercase letters,
at the current position, returning the year and month-name captures. -/
def tryYearNameAt (cs : List Char) : Option (List Char × List Char) :=
  let y := cs.take 4
  if y.length = 4 && y.all Char.isDigit then
    let rest := cs.drop 4
    let seps := rest.takeWhile isSepC
    if seps.isEmpty then none
    else
      let letters := (rest.drop seps.length).takeWhile isLowerAZ
      if letters.length < 3 then none else some (y, letters)
  else none

/-- Exactly `n` digits at the head of `cs`? Returns them. -/
def takeDigits (n : ℕ) (cs : List Char) : Option (List Char) :=
  let d := cs.take n
  if d.length = n && d.all Char.isDigit then some d else none

/-- Exactly `n` digits followed by `sep` at the head of `cs`, continuing
with `k` on the captured digits and the remainder. -/
def tryNumAt {β : Type} (sep : Char) (cs : List Char) (n : ℕ)
    (k : List Char → List Char → Option β) : Option β :=
  match takeDigits n cs with
  | some d => if (cs.drop n).head? = some sep then k d (cs.drop (n + 1)) else none
  | none => none

/-- A 1-or-2-digit capture, greedily (length 2 first, then 1), followed
by `sep`, continuing with `k`. -/
def numThenSep {β : Type} (sep : Char) (cs : List Char)
    (k : List Char → List Char → Option β) : Option β :=
  match tryNumAt sep cs 2 k with
  | some r => some r
  | none => tryNumAt sep cs 1 k

/-- Match `(\d{1,2})sep(\d{1,2})sep(\d{4})` at the current position; the
captures returned are (month, year). -/
def tryDMYAt (sep : Char) (cs : List Char) : Option (List Char × List Char) :=
  numThenSep sep cs (fun _d rest =>
    numThenSep sep rest (fun m rest2 =>
      match takeDigits 4 rest2 with
      | some y => some (m, y)
      | none => none))

/-- Match `(\d{4})sep(\d{1,2})sep(\d{1,2})` at the current position; the
captures returned are (year, month). -/
def tryYMDAt (sep : Char) (cs : List Char) : Option (List Char × List Char) :=
  match takeDigits 4 cs with
  | some y =>
    if (cs.drop 4).head? = some sep then
      numThenSep sep (cs.drop 5) (fun m rest2 =>
        if (rest2.take 1).all Char.isDigit && rest2 ≠ [] then some (y, m) else none)
    else none
  | none => none

/-- Anchored `^(\d{1,2})sep(\d{4})$`; captures (month, year). -/
def matchMYAnchored (sep : Char) (cs : List Char) : Option (List Char × List Char) :=
  numThenSep sep cs (fun m rest =>
    if rest.length = 4 && rest.all Char.isDigit then some (m, rest) else none)

/-- Anchored `^(\d{4})sep(\d{1,2})$`; captures (year, month). -/
def matchYMAnchored (sep : Char) (cs : List Char) : Option (List Char × List Char) :=
  match takeDigits 4 cs with
  | some y =>
    if (cs.drop 4).head? = some sep then
      let m := cs.drop 5
      if (m.length = 1 || m.length = 2) && m.all Char.isDigit then some (y, m) else none
    else none
  | none => none

/-- `str.zfill(2)`. -/
def zfill2 (m : List Char) : List Char := if m.length < 2 then '0' :: m else m

/-- `re.findall(r'\d+', s)`: maximal digit runs, via an accumulator. -/
def digitRunsAux : List Char → List Char → List (List Char)
  | cur, [] => if cur.isEmpty then [] else [cur.reverse]
  | cur, c :: t =>
    if c.isDigit then digitRunsAux (c :: cur) t
    else if cur.isEmpty then digitRunsAux [] t
    else cur.reverse :: digitRunsAux [] t

/-- `re.findall(r'\d+', s)`. -/
def digitRuns (cs : List Char) : List (List Char) := digitRunsAux [] cs

/-- Build the `"YYYY-MM"` key from the year chars and the month chars. -/
def mkKey (y m : List Char) : String := String.mk (y ++ '-' :: m)

/-- The digit-run fallback of the date normalizer: assume day/month/year
when at least three runs exist, validating month `∈ [1,12]` and a 4-digit
year. -/
def fallbackDigitRuns (cs : List Char) : Option String :=
  let runs := digitRuns cs
  if runs.length ≥ 3 then
    let m := runs.getD 1 []
    let y := runs.getD 2 []
    if y.length = 4 && 1 ≤ natOfDigits m && natOfDigits m ≤ 12 then
      some (mkKey y (zfill2 m))
    else none
  else none

/-- The eight numeric date patterns, tried in source order on the raw
(unnormalised) text. -/
def numericDatePatterns (cs : List Char) : Option String :=
  match searchOpt (tryDMYAt '/') cs with
  | some (m, y) => some (mkKey y (zfill2 m))
  | none =>
  match searchOpt (tryDMYAt '-') cs with
  | some (m, y) => some (mkKey y (zfill2 m))
  | none =>
  match searchOpt (tryYMDAt '/') cs with
  | some (y, m) => some (mkKey y (zfill2 m))
  | none =>
  match searchOpt (tryYMDAt '-') cs with
  | some (y, m) => some (mkKey y (zfill2 m))
  | none =>
  match matchMYAnchored '/' cs with
  | some (m, y) => some (mkKey y (zfill2 m))
  | none =>
  match matchMYAnchored '-' cs with
  | some (m, y) => some (mkKey y (zfill2 m))
  | none =>
  match matchYMAnchored '/' cs with
  | some (y, m) => some (mkKey y (zfill2 m))
  | none =>
  match matchYMAnchored '-' cs with
  | some (y, m) => some (mkKey y (zfill2 m))
  | none => fallbackDigitRuns cs

/-- Month-name-then-year pattern applied to the normalised text (a
failed table lookup falls through to the next pattern). -/
def nameYearKey (tn : List Char) : Option String :=
  match searchOpt tryNameYearAt tn with
  | some (mon, y) => (monKeyLookup mon).map (fun mm => String.mk (y ++ '-' :: mm.toList))
  | none => none

/-- Year-then-month-name pattern applied to the normalised text. -/
def yearNameKey (tn : List Char) : Option String :=
  match searchOpt tryYearNameAt tn with
  | some (y, mon) => (monKeyLookup mon).map (fun mm => String.mk (y ++ '-' :: mm.toList))
  | none => none

/-- `_extract_month_year_from_date`: canonicalise a raw date cell to a
`"YYYY-MM"` key, or `none` (row excluded from aggregation). -/
def extract_month_year_from_date (dv : String) : Option String :=
  if dv = "" then none
  else
    let tn := normDate dv
    match nameYearKey tn with
    | some k => some k
    | none =>
      match yearNameKey tn with
      | some k => some k
      | none => numericDatePatterns dv.toList

/-! ## Rows, headers and association-list maps -/

/-- A spreadsheet row: an insertion-ordered mapping from header to cell
text (`Dict[str, str]`). -/
abbrev Row := List (String × String)

/-- `row.get(k, '')`. -/
def rowGet : Row → String → String
  | [], _ => ""
  | (k1, v) :: t, k => if k1 = k then v else rowGet t k

/-- `k in row`. -/
def rowHasKey : Row → String → Bool
  | [], _ => false
  | (k1, _) :: t, k => k1 = k || rowHasKey t k

/-- `list(self.data[0].keys())` (empty when there is no data). -/
def headersOf (rows : List Row) : List String := (rows.headD []).map (fun p => p.1)

/-- `d.get(k)` on an association list. -/
def lookupStr {β : Type} : List (String × β) → String → Option β
  | [], _ => none
  | (k1, v) :: t, k => if k1 = k then some v else lookupStr t k

/-- Ensure key `k` exists (initialising with `init`) and update its value
with `f` — the `if k not in d: d[k] = init` / mutate idiom. -/
def upsert {β : Type} (k : String) (f : β → β) (init : β) :
    List (String × β) → List (String × β)
  | [] => [(k, f init)]
  | (k1, v) :: t => if k1 = k then (k1, f v) :: t else (k1, v) :: upsert k f init t

/-- Plain dict assignment `d[k] = v` (replace or append). -/
def setKey {β : Type} (k : String) (v : β) : List (String × β) → List (String × β)
  | [] => [(k, v)]
  | (k1, w) :: t => if k1 = k then (k1, v) :: t else (k1, w) :: setKey k v t

/-- Sum of a projection of the values of a list. -/
def sumQ {α : Type} (l : List α) (f : α → ℚ) : ℚ := (l.map f).sum

/-- Sum of a natural-number projection. -/
def sumN {α : Type} (l : List α) (f : α → ℕ) : ℕ := (l.map f).sum

/-- Insert a pair into a key-sorted list (ascending). -/
def insertPair {β : Type} (p : String × β) : List (String × β) → List (String × β)
  | [] => [p]
  | q :: t => if p.1 < q.1 then p :: q :: t else q :: insertPair p t

/-- `dict(sorted(d.items()))`: sort by key ascending (keys are unique, so
tuple comparison never reaches the values). -/
def sortPairs {β : Type} (l : List (String × β)) : List (String × β) :=
  l.foldr insertPair []

/-! ## Column role resolution -/

/-- Caller-supplied column overrides (`self.column_overrides`), keys
`data`/`proposta`/`boleto`. -/
structure Ov where
  data : Option String
  proposta : Option String
  boleto : Option String
deriving DecidableEq, Repr, Inhabited

/-- The empty override map. -/
def noOv : Ov := ⟨none, none, none⟩

/-- `ov.get(key) if ov.get(key) in headers_global else None`. -/
def validOv (o : Option String) (headers : List String) : Option String :=
  match o with
  | some v => if v ∈ headers then some v else none
  | none => none

/-- The `if not x: x = y` chaining on column candidates (`None` and the
empty string are falsy). -/
def orElseNE (a b : Option String) : Option String :=
  match a with
  | some s => if s = "" then b else some s
  | none => b

/-- Truthiness of a resolved column. -/
def truthyO (o : Option String) : Bool :=
  match o with
  | some s => s ≠ ""
  | none => false

/-- `find_by_direct_map` / `find_exact`: first candidate (in priority
order) that is a normalised substring of some header. -/
def findByCandidates (headers : List String) : List String → Option String
  | [] => none
  | c :: t =>
    match headers.find? (fun h => isSubL (normCol c) (normCol h)) with
    | some h => some h
    | none => findByCandidates headers t

/-- `_find_column_by_keywords`: first header whose keyword-normalised
name contains one of the given (normalised) keywords. -/
def find_column_by_keywords (headers : List String) (kws : List String) : Option String :=
  headers.find? (fun col => kws.any (fun kw => isSubL (normKw kw) (normKw col)))

/-- `_column_has_numeric_values`: sample the first 10 rows.  Since
`_extract_expense_value` never returns `None`, every sampled cell whose
column key is present counts as numeric, so the ratio test reduces to
presence of the key in some sampled row. -/
def column_has_numeric_values (rows : List Row) (col : String) : Bool :=
  let total := ((rows.take 10).filter (fun r => rowHasKey r col)).length
  let numeric := total
  decide (0 < total) && decide (total < 2 * numeric)

/-- Date-related words excluded from value columns in the detailed path
(compared unnormalised against normalised headers, as in the source). -/
def excludeDateWords : List String :=
  ["data", "emissao", "emissão", "envio", "vencimento", "prazo", "dia", "mes", "mês", "ano"]

/-- Does the normalised header contain one of the raw exclusion words? -/
def hasDateWord (h : String) : Bool :=
  excludeDateWords.any (fun w => isSubL w.toList (normCol h))

/-- `_score_header` of `select_best_numeric`: `-1` for excluded or
non-included headers, otherwise the number of sampled cells (first 50
rows) parsing to a nonzero value. -/
def scoreHeader (rows : List Row) (inc exc : List String) (h : String) : Int :=
  let hn := normCol h
  if exc.any (fun w => isSubL w.toList hn) then -1
  else if ¬ inc.any (fun w => isSubL w.toList hn) then -1
  else
    let sample := rows.take 50
    let cnt := (sample.filter (fun r => extract_expense_value (rowGet r h) ≠ 0)).length
    if 0 < sample.length then (cnt : Int) else -1

/-- The accumulator step of `select_best_numeric`: keep the strictly
higher score (so the first header wins ties). -/
def bestStep (rows : List Row) (inc exc : List String)
    (acc : Option String × Int) (h : String) : Option String × Int :=
  let sc := scoreHeader rows inc exc h
  if acc.2 < sc then (some h, sc) else acc

/-- `select_best_numeric`: highest-scoring header (first wins on ties),
required to score strictly above 0. -/
def select_best_numeric (rows : List Row) (headers inc exc : List String) : Option String :=
  let best := headers.foldl (bestStep rows inc exc) (none, -1)
  if 0 < best.2 then best.1 else none

/-- Direct-map date candidates of `get_monthly_summary_by_columns`. -/
def flatDateCands : List String :=
  ["Data Emissão Boleto", "Data de Emissão Boleto", "Data de Vencimento Boleto",
   "Data Vencimento do Boleto", "Data Pagamento", "Data do Pagamento", "Data", "DT", "Date"]

/-- Direct-map proposal candidates (shared by both aggregation paths). -/
def propCands : List String :=
  ["Valor Proposta", "Valor da Proposta", "Proposta", "Valor da proposta +15,75%"]

/-- Direct-map invoice candidates (shared by both aggregation paths). -/
def bolCands : List String :=
  ["Valor do Boleto (R$)", "Valor do Boleto", "Boleto", "Valor da Nota (R$)"]

/-- Keyword fallbacks of the flat path. -/
def flatDateKws : List String :=
  ["data", "dt", "date", "emissao", "emissão", "lancamento", "lançamento",
   "competencia", "competência"]

/-- Keyword fallbacks of the flat path (proposal role). -/
def flatPropKws : List String :=
  ["proposta", "orcamento", "orçamento", "pedido", "valor proposta"]

/-- Keyword fallbacks of the flat path (invoice role). -/
def flatBolKws : List String :=
  ["boleto", "fatura", "duplicata", "nf", "nota", "titulo", "título", "valor boleto"]

/-- Column resolution of `get_monthly_summary_by_columns`: overrides,
then direct map, then keywords, then the numeric-content / date-content
fallbacks, in source order. -/
def flatResolveCols (rows : List Row) (ov : Ov) :
    Option String × Option String × Option String :=
  let headers := headersOf rows
  let d0 := validOv ov.data headers
  let p0 := validOv ov.proposta headers
  let b0 := validOv ov.boleto headers
  let d1 := orElseNE d0 (findByCandidates headers flatDateCands)
  let p1 := orElseNE p0 (findByCandidates headers propCands)
  let b1 := orElseNE b0 (findByCandidates headers bolCands)
  let d2 := orElseNE d1 (find_column_by_keywords headers flatDateKws)
  let p2 := orElseNE p1 (find_column_by_keywords headers flatPropKws)
  let b2 := orElseNE b1 (find_column_by_keywords headers flatBolKws)
  let p3 := orElseNE p2 ((headers.filter (fun h => column_has_numeric_values rows h)).head?)
  let b3 := orElseNE b2 ((headers.filter (fun h =>
      column_has_numeric_values rows h &&
      (match p3 with | some p => h ≠ p | none => true))).head?)
  let d3 := orElseNE d2 (headers.find? (fun h =>
      (rows.take 10).any (fun r =>
        rowGet r h ≠ "" && (extract_month_year_from_date (rowGet r h)).isSome)))
  (d3, p3, b3)

/-- Detailed-path date candidates. -/
def detDateCands : List String :=
  ["Data de Envio do Boleto", "Data Emissão Boleto", "Data de Vencimento Boleto",
   "Data Vencimento do Boleto", "Data", "Date"]

/-- Nullify a truthy column whose normalised header contains a
date-related word. -/
def exclDateCol (o : Option String) : Option String :=
  match o with
  | some h => if h ≠ "" && hasDateWord h then none else some h
  | none => none

/-- Resolved columns of the detailed (hierarchical) path. -/
structure DetCols where
  dataCol : Option String
  propostaCol : Option String
  boletoCol : Option String
  tipoCol : Option String
  empresaCol : Option String
  colG : Option String
  colH : Option String
  colJ : Option String
deriving DecidableEq, Repr, Inhabited

/-- Column resolution of `get_detailed_monthly_data`: overrides, then
exact candidates or keywords, then the date-word exclusion, then
`select_best_numeric`, in source order. -/
def detailedResolveCols (rows : List Row) (ov : Ov) : DetCols :=
  let headers := headersOf rows
  let d0 := validOv ov.data headers
  let p0 := validOv ov.proposta headers
  let b0 := validOv ov.boleto headers
  let d1 := orElseNE d0 (orElseNE (findByCandidates headers detDateCands)
      (find_column_by_keywords headers ["data", "date"]))
  let p1 := orElseNE p0 (orElseNE (findByCandidates headers propCands)
      (find_column_by_keywords headers ["proposta"]))
  let b1 := orElseNE b0 (orElseNE (findByCandidates headers bolCands)
      (find_column_by_keywords headers ["boleto"]))
  let b2 := exclDateCol b1
  let p2 := exclDateCol p1
  let b3 := orElseNE b2 (select_best_numeric rows headers
      ["boleto", "nota", "r$", "valor do boleto", "valor da nota"] excludeDateWords)
  let p3 := orElseNE p2 (select_best_numeric rows headers
      ["proposta", "valor", "r$", "valor proposta", "valor da proposta"] excludeDateWords)
  let tipo := find_column_by_keywords headers ["tipo", "categoria", "category", "type"]
  let empresa := find_column_by_keywords headers ["empresa", "company", "cliente"]
  let g := find_column_by_keywords headers ["g"]
  let h := find_column_by_keywords headers ["h"]
  let j := find_column_by_keywords headers ["j"]
  ⟨d1, p3, b3, tipo, empresa, g, h, j⟩

/-- `set_column_overrides`: keep only the accepted keys whose (nonempty)
value occurs among the current headers (any value accepted when no data
has been loaded); the stored value is stripped. -/
def set_column_overrides (rows : List Row) (raw : Ov) : Ov :=
  let headers := headersOf rows
  let keep : Option String → Option String := fun o =>
    match o with
    | some v => if trimS v ≠ "" && (headers.isEmpty || v ∈ headers) then some (trimS v) else none
    | none => none
  ⟨keep raw.data, keep raw.proposta, keep raw.boleto⟩

/-! ## Flat monthly aggregation (`get_monthly_summary_by_columns`) -/

/-- One list entry of a flat month bucket (`items`).  Projection items
additionally carry `proposta`/`tipo`/`is_projection` keys, modelled as
optional fields. -/
structure FlatItem where
  data : String
  vp : ℚ
  vb : ℚ
  dv : ℚ
  dpct : ℚ
  proposta : Option String
  tipo : Option String
  isProj : Bool
deriving DecidableEq, Repr, Inhabited

/-- A flat `MonthlyBucket`: totals, average percent difference, record
count, items, and the projection marker (absent key modelled as
`false`). -/
structure FlatBucket where
  tp : ℚ
  tb : ℚ
  td : ℚ
  dpm : ℚ
  count : ℕ
  items : List FlatItem
  isProj : Bool
deriving DecidableEq, Repr, Inhabited

/-- A month bucket before any row is added. -/
def emptyFlatBucket : FlatBucket := ⟨0, 0, 0, 0, 0, [], false⟩

/-- Add one row (date text, proposal, invoice values) to a flat bucket. -/
def addFlatRow (dateV : String) (p b : ℚ) (bk : FlatBucket) : FlatBucket :=
  { bk with
    tp := bk.tp + p
    tb := bk.tb + b
    td := bk.td + (b - p)
    count := bk.count + 1
    items := bk.items ++ [⟨dateV, p, b, b - p,
      (if p ≠ 0 then (b - p) / p * 100 else 0), none, none, false⟩] }

/-- One iteration of the flat aggregation loop. -/
def flatStep (dc pc bc : String) (acc : List (String × FlatBucket)) (r : Row) :
    List (String × FlatBucket) :=
  let dateV := rowGet r dc
  if dateV = "" then acc
  else
    match extract_month_year_from_date dateV with
    | none => acc
    | some k =>
      let p := extract_expense_value (rowGet r pc)
      let b := extract_expense_value (rowGet r bc)
      upsert k (addFlatRow dateV p b) emptyFlatBucket acc

/-- The end-of-loop pass computing `diferenca_percentual_media`. -/
def setDpm (bk : FlatBucket) : FlatBucket :=
  { bk with dpm := if bk.tp ≠ 0 then bk.td / bk.tp * 100 else 0 }

/-- Result dictionary of the flat summary.  The `{"error": msg}` outcome
is modelled by a `some` error and empty remaining fields (every consumer
reads the missing keys through `.get(..., default)`). -/
structure FlatOut where
  error : Option String
  resumo : List (String × FlatBucket)
  tpGeral : ℚ
  tbGeral : ℚ
  tdGeral : ℚ
  meses : ℕ
deriving DecidableEq, Repr, Inhabited

/-- An error outcome. -/
def errOut (msg : String) : FlatOut := ⟨some msg, [], 0, 0, 0, 0⟩

/-- `get_monthly_summary_by_columns`. -/
def get_monthly_summary_by_columns (rows : List Row) (ov : Ov) : FlatOut :=
  if rows.isEmpty then errOut ("Nenhum dado disponível")
  else
    match flatResolveCols rows ov with
    | (dcO, pcO, bcO) =>
      if ¬ (truthyO dcO && truthyO pcO && truthyO bcO) then
        errOut ("Não foi possível identificar colunas de Data/Proposta/Boleto pelo cabeçalho")
      else
        let dc := dcO.getD ""
        let pc := pcO.getD ""
        let bc := bcO.getD ""
        let months := rows.foldl (flatStep dc pc bc) []
        let months2 := months.map (fun p => (p.1, setDpm p.2))
        ⟨none, sortPairs months2,
          sumQ months2 (fun p => p.2.tp),
          sumQ months2 (fun p => p.2.tb),
          sumQ months2 (fun p => p.2.td),
          months2.length⟩

/-! ## Hierarchical aggregation (`get_detailed_monthly_data`) -/

/-- One extracted proposal record (innermost leaf). -/
structure PropRec where
  empresa : String
  colG : String
  colH : String
  data : String
  vp : ℚ
  colJ : String
  vb : ℚ
  dif : ℚ
  rowIdx : ℕ
deriving DecidableEq, Repr, Inhabited

/-- Counterparty node. -/
structure EmpNode where
  tp : ℚ
  tb : ℚ
  td : ℚ
  cnt : ℕ
  propostas : List PropRec
deriving DecidableEq, Repr, Inhabited

/-- Category node. -/
structure TipoNode where
  tp : ℚ
  tb : ℚ
  td : ℚ
  cnt : ℕ
  empresas : List (String × EmpNode)
deriving DecidableEq, Repr, Inhabited

/-- Month node. -/
structure MonthNode where
  tp : ℚ
  tb : ℚ
  td : ℚ
  cnt : ℕ
  tipos : List (String × TipoNode)
deriving DecidableEq, Repr, Inhabited

/-- Zero-valued counterparty node. -/
def emptyEmp : EmpNode := ⟨0, 0, 0, 0, []⟩

/-- Zero-valued category node. -/
def emptyTipo : TipoNode := ⟨0, 0, 0, 0, []⟩

/-- Zero-valued month node. -/
def emptyMonth : MonthNode := ⟨0, 0, 0, 0, []⟩

/-- Add a record to a counterparty node. -/
def addEmp (r : PropRec) (e : EmpNode) : EmpNode :=
  ⟨e.tp + r.vp, e.tb + r.vb, e.td + r.dif, e.cnt + 1, e.propostas ++ [r]⟩

/-- Add a record to a category node (and to its counterparty). -/
def addTipo (ek : String) (r : PropRec) (t : TipoNode) : TipoNode :=
  ⟨t.tp + r.vp, t.tb + r.vb, t.td + r.dif, t.cnt + 1,
    upsert ek (addEmp r) emptyEmp t.empresas⟩

/-- Add a record to a month node (and to its category/counterparty). -/
def addMonth (tk ek : String) (r : PropRec) (m : MonthNode) : MonthNode :=
  ⟨m.tp + r.vp, m.tb + r.vb, m.td + r.dif, m.cnt + 1,
    upsert tk (addTipo ek r) emptyTipo m.tipos⟩

/-- `row.get(col, '').strip() if col else ''`. -/
def getIfStrip (o : Option String) (r : Row) : String :=
  match o with
  | some c => if c ≠ "" then trimS (rowGet r c) else ""
  | none => ""

/-- `row.get(col, '') if col else ''` (value columns are not stripped). -/
def getIfRaw (o : Option String) (r : Row) : String :=
  match o with
  | some c => if c ≠ "" then rowGet r c else ""
  | none => ""

/-- Category synonym normalisation of the detailed path. -/
def normalizeTipo (tv : String) : String :=
  if lowerStr tv ∈ ["setup", "set up", "set-up", "configuração", "config"] then ("Setup")
  else if lowerStr tv ∈ ["mensalidade", "mensal", "monthly"] then ("Mensalidade")
  else if tv ≠ "" then tv else ("Outros")

/-- One iteration of the detailed aggregation loop (at row index `i`). -/
def detStep (cols : DetCols) (i : ℕ) (acc : List (String × MonthNode)) (r : Row) :
    List (String × MonthNode) :=
  let tipoV := getIfStrip cols.tipoCol r
  let empresaV := getIfStrip cols.empresaCol r
  let dataV := getIfStrip cols.dataCol r
  let gV := getIfStrip cols.colG r
  let hV := getIfStrip cols.colH r
  let propostaV := getIfRaw cols.propostaCol r
  let jV := getIfStrip cols.colJ r
  let boletoV := getIfRaw cols.boletoCol r
  if dataV = "" then acc
  else
    match extract_month_year_from_date dataV with
    | none => acc
    | some k =>
      let p := extract_expense_value propostaV
      let b := extract_expense_value boletoV
      let rec1 : PropRec := ⟨empresaV, gV, hV, dataV, p, jV, b, b - p, i⟩
      upsert k (addMonth (normalizeTipo tipoV) empresaV rec1) emptyMonth acc

/-- The `enumerate(self.data)` loop of the detailed path. -/
def detFold (cols : DetCols) : ℕ → List Row → List (String × MonthNode) →
    List (String × MonthNode)
  | _, [], acc => acc
  | i, r :: t, acc => detFold cols (i + 1) t (detStep cols i acc r)

/-- `get_detailed_monthly_data` (success carries the sorted month map). -/
def get_detailed_monthly_data (rows : List Row) (ov : Ov) :
    Except String (List (String × MonthNode)) :=
  if rows.isEmpty then .error ("Nenhum dado disponível")
  else
    let cols := detailedResolveCols rows ov
    if ¬ (truthyO cols.dataCol && truthyO cols.propostaCol && truthyO cols.boletoCol) then
      .error ("Não foi possível identificar colunas essenciais para dados detalhados")
    else
      .ok (sortPairs (detFold cols 0 rows []))

/-! ## Contract projection engine -/

/-- A calendar date (`datetime` restricted to its date part). -/
structure DateT where
  y : ℕ
  m : ℕ
  d : ℕ
deriving DecidableEq, Repr, Inhabited

/-- `datetime` comparison (year, then month, then day). -/
def dateLt (a b : DateT) : Bool :=
  a.y < b.y || (a.y = b.y && (a.m < b.m || (a.m = b.m && a.d < b.d)))

/-- Leap-year rule used by `datetime` for day validation. -/
def isLeap (y : ℕ) : Bool := y % 4 = 0 && (y % 100 ≠ 0 || y % 400 = 0)

/-- Days in a month. -/
def daysInMonth (y m : ℕ) : ℕ :=
  if m = 2 then (if isLeap y then 29 else 28)
  else if m ∈ [4, 6, 9, 11] then 30 else 31

/-- A 1–2 digit segment with a value in `[lo, hi]` (the `%d`/`%m`
directives of `strptime`). -/
def validSeg (seg : List Char) (lo hi : ℕ) : Bool :=
  (seg.length = 1 || seg.length = 2) && seg.all Char.isDigit &&
    lo ≤ natOfDigits seg && natOfDigits seg ≤ hi

/-- A 4-digit year segment (`%Y`). -/
def validYearSeg (seg : List Char) : Bool := seg.length = 4 && seg.all Char.isDigit

/-- `datetime.strptime(s, '%d SEP %m SEP %Y')` (full-string match plus
calendar validation). -/
def parseSegDMY (sep : Char) (s : String) : Option DateT :=
  match s.toList.splitOn sep with
  | [d, m, y] =>
    if validSeg d 1 31 && validSeg m 1 12 && validYearSeg y &&
        natOfDigits d ≤ daysInMonth (natOfDigits y) (natOfDigits m) then
      some ⟨natOfDigits y, natOfDigits m, natOfDigits d⟩
    else none
  | _ => none

/-- `datetime.strptime(s, '%Y SEP %m SEP %d')`. -/
def parseSegYMD (sep : Char) (s : String) : Option DateT :=
  match s.toList.splitOn sep with
  | [y, m, d] =>
    if validYearSeg y && validSeg m 1 12 && validSeg d 1 31 &&
        natOfDigits d ≤ daysInMonth (natOfDigits y) (natOfDigits m) then
      some ⟨natOfDigits y, natOfDigits m, natOfDigits d⟩
    else none
  | _ => none

/-- `datetime.strptime(s, '%m/%d/%Y')`. -/
def parseSegMDY (sep : Char) (s : String) : Option DateT :=
  match s.toList.splitOn sep with
  | [m, d, y] =>
    if validSeg m 1 12 && validSeg d 1 31 && validYearSeg y &&
        natOfDigits d ≤ daysInMonth (natOfDigits y) (natOfDigits m) then
      some ⟨natOfDigits y, natOfDigits m, natOfDigits d⟩
    else none
  | _ => none

/-- `_parse_contract_date`: the four accepted formats, in order. -/
def parse_contract_date (s : String) : Option DateT :=
  match parseSegDMY '/' s with
  | some d => some d
  | none =>
  match parseSegYMD '-' s with
  | some d => some d
  | none =>
  match parseSegDMY '-' s with
  | some d => some d
  | none => parseSegMDY '/' s

/-- A `ProjectionRecord` produced by `_calculate_contract_projection`. -/
structure ProjRec where
  proposta : String
  valor : ℚ
  tipo : String
  dataInicio : String
  dataFim : String
deriving DecidableEq, Repr, Inhabited

/-- `_calculate_contract_projection`: require the five contract fields,
a nonzero installment value, parseable start/end/target dates, and the
target month's first day inside `[start, end]`. -/
def calculate_contract_projection (contract : Row) (targetMonth : String) :
    Option ProjRec :=
  let pn := rowGet contract ("Proposta")
  let v := rowGet contract ("Valor da Parcela")
  let sd := rowGet contract ("1ª Data Vencimento")
  let ed := rowGet contract ("Ult Data Venc")
  let ct := rowGet contract ("Tipo")
  if pn = "" || v = "" || sd = "" || ed = "" || ct = "" then none
  else
    let vf := extract_expense_value v
    if vf = 0 then none
    else
      let sdt := parse_contract_date sd
      let edt := parse_contract_date ed
      match parseSegYMD '-' (targetMonth ++ "-01") with
      | none => none
      | some tdt =>
        match sdt, edt with
        | some sdt1, some edt1 =>
          if dateLt tdt sdt1 || dateLt edt1 tdt then none
          else
            let mapped := if ct = "Mensalidade" then ("Mensalidade")
              else if ct = "Implantação" then ("Setup") else ct
            some ⟨pn, vf, mapped, sd, ed⟩
        | _, _ => none

/-- `_check_existing_expense_data`: true only when the month is present
in the flat summary with a proposal or invoice total strictly greater
than zero. -/
def check_existing_expense_data (rows : List Row) (ov : Ov) (targetMonth : String) :
    Bool :=
  let monthly := get_monthly_summary_by_columns rows ov
  match lookupStr monthly.resumo targetMonth with
  | none => false
  | some b => decide (0 < b.tp) || decide (0 < b.tb)

/-- `generate_projections`: for every target month without existing
valid data, the list of contract projections (months with none are
dropped). -/
def generate_projections (rows : List Row) (ov : Ov) (contracts : List Row)
    (targetMonths : List String) : List (String × List ProjRec) :=
  targetMonths.foldl
    (fun acc m =>
      if check_existing_expense_data rows ov m then acc
      else
        let mp := contracts.filterMap (fun c => calculate_contract_projection c m)
        if mp.isEmpty then acc else acc ++ [(m, mp)])
    []

/-- The synthesized flat bucket for a projected month. -/
def projBucket (m : String) (mps : List ProjRec) : FlatBucket :=
  let tp := sumQ mps (fun p => p.valor)
  ⟨tp, tp, tp - tp, 0, mps.length,
    mps.map (fun p => ⟨m ++ "-01", p.valor, p.valor, 0, 0, some p.proposta, some p.tipo, true⟩),
    true⟩

/-- `get_monthly_data_with_projections`: merge projection buckets for the
eligible requested months into the flat view and recompute grand
totals. -/
def get_monthly_data_with_projections (rows : List Row) (ov : Ov)
    (contracts : List Row) (projectionMonths : List String) : FlatOut :=
  let real := get_monthly_summary_by_columns rows ov
  if projectionMonths.isEmpty then real
  else
    let filtered := projectionMonths.filter
      (fun m => ¬ check_existing_expense_data rows ov m)
    if filtered.isEmpty then real
    else
      let projections := generate_projections rows ov contracts filtered
      let resumo1 := projections.foldl
        (fun acc q => setKey q.1 (projBucket q.1 q.2) acc) real.resumo
      ⟨real.error, resumo1,
        sumQ resumo1 (fun p => p.2.tp),
        sumQ resumo1 (fun p => p.2.tb),
        sumQ resumo1 (fun p => p.2.td),
        resumo1.length⟩

/-- `current_date + relativedelta(months=i)` on (year, month). -/
def addMonths (y m i : ℕ) : ℕ × ℕ :=
  let t := m + i
  (y + (t - 1) / 12, (t - 1) % 12 + 1)

/-- Left-pad a numeral with zeros to the given width. -/
def padNum (w n : ℕ) : String :=
  let s := toString n
  String.mk (List.replicate (w - s.length) '0') ++ s

/-- `strftime('%Y-%m')`. -/
def fmtMonth (p : ℕ × ℕ) : String := padNum 4 p.1 ++ "-" ++ padNum 2 p.2

/-- `get_monthly_data_with_auto_projections`: the next 12 months from the
current date (an ambient input of the source, explicit here), filtered to
those without valid real data, then projected. -/
def get_monthly_data_with_auto_projections (rows : List Row) (ov : Ov)
    (contracts : List Row) (todayY todayM : ℕ) : FlatOut :=
  let futureMonths := (List.range 12).map (fun i => fmtMonth (addMonths todayY todayM (i + 1)))
  let missing := futureMonths.filter (fun m => ¬ check_existing_expense_data rows ov m)
  if missing.isEmpty then get_monthly_summary_by_columns rows ov
  else get_monthly_data_with_projections rows ov contracts missing

/-! ## The extractor state (for re-run determinism) -/

/-- The extractor fields read by the aggregation pipeline.  The mutable
`last_error` field is written only inside exception handlers of the
aggregation paths and is never read by them, so it is omitted. -/
structure ExtractorState where
  data : List Row
  contractsData : List Row
  columnOverrides : Ov
deriving DecidableEq, Repr, Inhabited

/-- Run the auto-projection entry point, threading the extractor state
(the source mutates none of the fields above). -/
def runAutoProjections (σ : ExtractorState) (todayY todayM : ℕ) :
    FlatOut × ExtractorState :=
  (get_monthly_data_with_auto_projections σ.data σ.columnOverrides σ.contractsData
    todayY todayM, σ)

/-- Run the hierarchical builder, threading the extractor state. -/
def runDetailed (σ : ExtractorState) :
    Except String (List (String × MonthNode)) × ExtractorState :=
  (get_detailed_monthly_data σ.data σ.columnOverrides, σ)

/-! ## Association-list lemmas -/

lemma upsert_forall {β : Type} {P : String → β → Prop} {f : β → β} {k : String}
    {init : β} (hstep : ∀ v, P k v → P k (f v)) (hinit : P k (f init)) :
    ∀ l : List (String × β), (∀ p ∈ l, P p.1 p.2) →
      ∀ p ∈ upsert k f init l, P p.1 p.2 := by
  intro l
  induction l with
  | nil =>
    intro _ p hp
    simp only [upsert, List.mem_singleton] at hp
    subst hp
    exact hinit
  | cons q t ih =>
    intro hall p hp
    obtain ⟨k1, v⟩ := q
    by_cases h : k1 = k
    · subst h
      simp only [upsert, if_pos rfl, eq_self_iff_true, if_true, List.mem_cons] at hp
      rcases hp with hp | hp
      · subst hp
        exact hstep v (hall (k1, v) (List.mem_cons_self _ _))
      · exact hall p (List.mem_cons_of_mem _ hp)
    · simp only [upsert, if_neg h, List.mem_cons] at hp
      rcases hp with hp | hp
      · subst hp
        exact hall (k1, v) (List.mem_cons_self _ _)
      · exact ih (fun q hq => hall q (List.mem_cons_of_mem _ hq)) p hp

lemma upsert_sum {β M : Type} [AddCommMonoid M] {g : β → M} {f : β → β} {δ : M}
    {k : String} {init : β} (hf : ∀ v, g (f v) = g v + δ) (hi : g init = 0) :
    ∀ l : List (String × β),
      ((upsert k f init l).map (fun p => g p.2)).sum =
        (l.map (fun p => g p.2)).sum + δ := by
  intro l
  induction l with
  | nil => simp [upsert, hf, hi]
  | cons q t ih =>
    obtain ⟨k1, v⟩ := q
    by_cases h : k1 = k
    · simp only [upsert, if_pos h, List.map_cons, List.sum_cons, hf]
      rw [add_right_comm]
    · simp only [upsert, if_neg h, List.map_cons, List.sum_cons, ih]
      rw [add_assoc]

lemma mem_setKey {β : Type} {k : String} {v : β} :
    ∀ l : List (String × β), ∀ p ∈ setKey k v l, p = (k, v) ∨ p ∈ l := by
  intro l
  induction l with
  | nil =>
    intro p hp
    simp only [setKey, List.mem_singleton] at hp
    exact Or.inl hp
  | cons q t ih =>
    intro p hp
    obtain ⟨k1, w⟩ := q
    by_cases h : k1 = k
    · subst h
      simp only [setKey, if_pos rfl, eq_self_iff_true, if_true, List.mem_cons] at hp
      rcases hp with hp | hp
      · exact Or.inl hp
      · exact Or.inr (List.mem_cons_of_mem _ hp)
    · simp only [setKey, if_neg h, List.mem_cons] at hp
      rcases hp with hp | hp
      · exact Or.inr (by simp [hp])
      · rcases ih p hp with h1 | h1
        · exact Or.inl h1
        · exact Or.inr (List.mem_cons_of_mem _ h1)

lemma lookupStr_mem {β : Type} {k : String} {v : β} :
    ∀ l : List (String × β), lookupStr l k = some v → (k, v) ∈ l := by
  intro l
  induction l with
  | nil => intro h; simp [lookupStr] at h
  | cons q t ih =>
    intro h
    obtain ⟨k1, w⟩ := q
    by_cases hk : k1 = k
    · subst hk
      simp only [lookupStr, if_pos rfl, eq_self_iff_true, if_true, Option.some_inj] at h
      subst h
      exact List.mem_cons_self _ _
    · simp only [lookupStr, if_neg hk] at h
      exact List.mem_cons_of_mem _ (ih h)

lemma insertPair_perm {β : Type} (p : String × β) :
    ∀ l : List (String × β), (insertPair p l).Perm (p :: l) := by
  intro l
  induction l with
  | nil => simp [insertPair]
  | cons q t ih =>
    by_cases h : p.1 < q.1
    · simp [insertPair, h]
    · simp only [insertPair, if_neg h]
      exact ((ih.cons q).trans (List.Perm.swap p q t))

lemma sortPairs_perm {β : Type} :
    ∀ l : List (String × β), (sortPairs l).Perm l := by
  intro l
  induction l with
  | nil => simp [sortPairs]
  | cons q t ih =>
    have h1 : sortPairs (q :: t) = insertPair q (sortPairs t) := rfl
    rw [h1]
    exact (insertPair_perm q (sortPairs t)).trans (ih.cons q)

/-- Pointwise relation between two association lists with identical key
sequences. -/
def Aligned {α β : Type} (R : α → β → Prop) :
    List (String × α) → List (String × β) → Prop
  | [], [] => True
  | (k1, a) :: t1, (k2, b) :: t2 => k1 = k2 ∧ R a b ∧ Aligned R t1 t2
  | _, _ => False

lemma aligned_upsert {α β : Type} {R : α → β → Prop} {f1 : α → α} {f2 : β → β}
    {i1 : α} {i2 : β} (k : String) (hR : ∀ a b, R a b → R (f1 a) (f2 b))
    (hi : R (f1 i1) (f2 i2)) :
    ∀ l1 l2, Aligned R l1 l2 → Aligned R (upsert k f1 i1 l1) (upsert k f2 i2 l2) := by
  intro l1
  induction l1 with
  | nil =>
    intro l2 hA
    cases l2 with
    | nil => exact ⟨rfl, hi, trivial⟩
    | cons q t => exact absurd hA (by cases q; simp [Aligned])
  | cons q t ih =>
    intro l2 hA
    cases l2 with
    | nil => exact absurd hA (by cases q; simp [Aligned])
    | cons q2 t2 =>
      obtain ⟨k1, a⟩ := q
      obtain ⟨k2, b⟩ := q2
      obtain ⟨hk, hab, ht⟩ := hA
      subst hk
      by_cases h : k1 = k
      · simpa [upsert, h] using ⟨rfl, hR a b hab, ht⟩
      · simpa [upsert, h] using ⟨rfl, hab, ih t2 ht⟩

lemma aligned_map {α β : Type} {R : α → β → Prop} {g : α → α}
    (hg : ∀ a b, R a b → R (g a) b) :
    ∀ l1 l2, Aligned R l1 l2 → Aligned R (l1.map (fun p => (p.1, g p.2))) l2 := by
  intro l1
  induction l1 with
  | nil =>
    intro l2 hA
    cases l2 with
    | nil => trivial
    | cons q t => exact absurd hA (by cases q; simp [Aligned])
  | cons q t ih =>
    intro l2 hA
    cases l2 with
    | nil => exact absurd hA (by cases q; simp [Aligned])
    | cons q2 t2 =>
      obtain ⟨k1, a⟩ := q
      obtain ⟨k2, b⟩ := q2
      obtain ⟨hk, hab, ht⟩ := hA
      exact ⟨hk, hg a b hab, ih t2 ht⟩

lemma aligned_insertPair {α β : Type} {R : α → β → Prop} {a : α} {b : β}
    (k : String) (hab : R a b) :
    ∀ l1 l2, Aligned R l1 l2 →
      Aligned R (insertPair (k, a) l1) (insertPair (k, b) l2) := by
  intro l1
  induction l1 with
  | nil =>
    intro l2 hA
    cases l2 with
    | nil => exact ⟨rfl, hab, trivial⟩
    | cons q t => exact absurd hA (by cases q; simp [Aligned])
  | cons q t ih =>
    intro l2 hA
    cases l2 with
    | nil => exact absurd hA (by cases q; simp [Aligned])
    | cons q2 t2 =>
      obtain ⟨k1, x⟩ := q
      obtain ⟨k2, y⟩ := q2
      obtain ⟨hk, hxy, ht⟩ := hA
      subst hk
      by_cases h : k < k1
      · simpa [insertPair, h] using ⟨rfl, hab, rfl, hxy, ht⟩
      · simpa [insertPair, h] using ⟨rfl, hxy, ih t2 ht⟩

lemma aligned_sortPairs {α β : Type} {R : α → β → Prop} :
    ∀ l1 l2, Aligned R l1 l2 → Aligned R (sortPairs l1) (sortPairs l2) := by
  intro l1
  induction l1 with
  | nil =>
    intro l2 hA
    cases l2 with
    | nil => trivial
    | cons q t => exact absurd hA (by cases q; simp [Aligned])
  | cons q t ih =>
    intro l2 hA
    cases l2 with
    | nil => exact absurd hA (by cases q; simp [Aligned])
    | cons q2 t2 =>
      obtain ⟨k1, a⟩ := q
      obtain ⟨k2, b⟩ := q2
      obtain ⟨hk, hab, ht⟩ := hA
      subst hk
      exact aligned_insertPair k1 hab _ _ (ih t2 ht)

lemma aligned_lookupStr {α β : Type} {R : α → β → Prop} :
    ∀ l1 l2, Aligned R l1 l2 → ∀ (k : String) (a : α) (b : β),
      lookupStr l1 k = some a → lookupStr l2 k = some b → R a b := by
  intro l1
  induction l1 with
  | nil => intro l2 _ k a b h1; simp [lookupStr] at h1
  | cons q t ih =>
    intro l2 hA k a b h1 h2
    cases l2 with
    | nil => exact absurd hA (by cases q; simp [Aligned])
    | cons q2 t2 =>
      obtain ⟨k1, x⟩ := q
      obtain ⟨k2, y⟩ := q2
      obtain ⟨hk, hxy, ht⟩ := hA
      subst hk
      by_cases h : k1 = k
      · simp only [lookupStr, if_pos h, Option.some_inj] at h1 h2
        subst h1; subst h2
        exact hxy
      · simp only [lookupStr, if_neg h] at h1 h2
        exact ih t2 ht k a b h1 h2


/-! ## Flat bucket invariants -/

/-- Running invariant of the flat aggregation loop: the difference total
tracks `invoice - proposal`, and real buckets are not projections. -/
def FlatTdProj (b : FlatBucket) : Prop := b.td = b.tb - b.tp ∧ b.isProj = false

lemma addFlatRow_pres {d : String} {p q : ℚ} {bk : FlatBucket}
    (h : FlatTdProj bk) : FlatTdProj (addFlatRow d p q bk) := by
  obtain ⟨h1, h2⟩ := h
  refine ⟨?_, h2⟩
  simp only [addFlatRow, h1]
  ring

lemma addFlatRow_empty {d : String} {p q : ℚ} :
    FlatTdProj (addFlatRow d p q emptyFlatBucket) :=
  addFlatRow_pres ⟨by norm_num [emptyFlatBucket], rfl⟩

lemma flatStep_forall {dc pc bc : String} {acc : List (String × FlatBucket)} {r : Row}
    (h : ∀ p ∈ acc, FlatTdProj p.2) : ∀ p ∈ flatStep dc pc bc acc r, FlatTdProj p.2 := by
  unfold flatStep
  by_cases hd : rowGet r dc = ""
  · simpa [hd] using h
  · simp only [if_neg hd]
    cases hm : extract_month_year_from_date (rowGet r dc) with
    | none => exact h
    | some k =>
      exact upsert_forall (P := fun _ b => FlatTdProj b)
        (fun v hv => addFlatRow_pres hv) addFlatRow_empty acc h

lemma flatFold_forall (dc pc bc : String) :
    ∀ (rows : List Row) (acc : List (String × FlatBucket)),
      (∀ p ∈ acc, FlatTdProj p.2) →
      ∀ p ∈ rows.foldl (flatStep dc pc bc) acc, FlatTdProj p.2 := by
  intro rows
  induction rows with
  | nil => intro acc h; simpa using h
  | cons r t ih =>
    intro acc h
    simp only [List.foldl_cons]
    exact ih (flatStep dc pc bc acc r) (flatStep_forall h)

/-- The bucket-level facts claimed of every flat `MonthlyBucket`. -/
def BucketClaim (b : FlatBucket) : Prop :=
  b.td = b.tb - b.tp ∧ b.dpm = (if b.tp ≠ 0 then b.td / b.tp * 100 else 0)

lemma setDpm_claim {b : FlatBucket} (h : FlatTdProj b) :
    BucketClaim (setDpm b) ∧ (setDpm b).isProj = false := by
  obtain ⟨h1, h2⟩ := h
  exact ⟨⟨h1, rfl⟩, h2⟩

lemma flat_resumo_forall (rows : List Row) (ov : Ov) :
    ∀ p ∈ (get_monthly_summary_by_columns rows ov).resumo,
      BucketClaim p.2 ∧ p.2.isProj = false := by
  intro p hp
  unfold get_monthly_summary_by_columns at hp
  split at hp
  · simp [errOut] at hp
  · split at hp
    split at hp
    · simp [errOut] at hp
    · simp only [FlatOut.resumo] at hp
      have hp2 := (sortPairs_perm _).mem_iff.mp hp
      rcases List.mem_map.mp hp2 with ⟨q, hq, hq2⟩
      have hfold := flatFold_forall _ _ _ rows [] (by simp) q hq
      subst hq2
      exact setDpm_claim hfold

lemma projBucket_claim (m : String) (mps : List ProjRec) :
    BucketClaim (projBucket m mps) := by
  constructor
  · simp [projBucket]
  · simp [projBucket]

lemma foldl_setKey_forall {P : FlatBucket → Prop} :
    ∀ (projs : List (String × List ProjRec)),
      (∀ q ∈ projs, P (projBucket q.1 q.2)) →
      ∀ acc : List (String × FlatBucket), (∀ p ∈ acc, P p.2) →
      ∀ p ∈ projs.foldl (fun a q => setKey q.1 (projBucket q.1 q.2) a) acc, P p.2 := by
  intro projs
  induction projs with
  | nil => intro _ acc h; simpa using h
  | cons q t ih =>
    intro hP acc h
    simp only [List.foldl_cons]
    refine ih (fun q2 hq2 => hP q2 (List.mem_cons_of_mem _ hq2)) _ ?_
    intro p hp
    rcases mem_setKey _ p hp with h1 | h1
    · subst h1
      exact hP q (List.mem_cons_self _ _)
    · exact h p h1

/-- C6: for every flat `MonthlyBucket` produced by the aggregator — with
or without projection buckets merged in — `difference_total` equals
`invoice_total - proposal_total`, and `difference_percent_avg` equals
`difference_total / proposal_total * 100` when `proposal_total` is
nonzero and `0` otherwise (the division being guarded in the source; in
this embedding the guard is the `if` below). -/
theorem C6_bucket_invariants (rows : List Row) (ov : Ov) (contracts : List Row)
    (pm : List String) (k : String) (b : FlatBucket)
    (hmem : (k, b) ∈ (get_monthly_data_with_projections rows ov contracts pm).resumo) :
    b.td = b.tb - b.tp ∧ b.dpm = (if b.tp ≠ 0 then b.td / b.tp * 100 else 0) := by
  unfold get_monthly_data_with_projections at hmem
  split at hmem
  · exact (flat_resumo_forall rows ov _ hmem).1
  · dsimp only [] at hmem
    split at hmem
    · exact (flat_resumo_forall rows ov _ hmem).1
    · exact foldl_setKey_forall _ (fun q _ => projBucket_claim q.1 q.2) _
        (fun p hp => (flat_resumo_forall rows ov p hp).1) (k, b) hmem

/-- A sample batch whose July 2025 bucket has a negative proposal total. -/
def rowsNeg : List Row := [[("Data", "15/07/2025"), ("Proposta", "(500,00)"), ("Boleto", "0")]]

/-- A sample contract list: one monthly contract covering 2025. -/
def contractsM : List Row := [[("Proposta", "P1"), ("Valor da Parcela", "100,00"),
  ("1ª Data Vencimento", "01/01/2025"), ("Ult Data Venc", "31/12/2025"),
  ("Tipo", "Mensalidade")]]

/-- C6 witness: the bucket invariants evaluated on a concrete projected
month. -/
theorem C6_bucket_invariants_witness :
    (let b := (lookupStr (get_monthly_data_with_projections rowsNeg noOv contractsM
        ["2025-07"]).resumo ("2025-07")).getD default
     b.td = b.tb - b.tp ∧ b.dpm = (if b.tp ≠ 0 then b.td / b.tp * 100 else 0)) :=
  C6_bucket_invariants rowsNeg noOv contractsM ["2025-07"] ("2025-07") _ (by decide)

/-- C3: the numeric value normalizer is total by construction (a plain
function into `ℚ`, so it raises nothing on any raw cell string);
placeholder tokens and text unparseable after cleanup map to `0`, the
sign is taken from enclosing parentheses or a leading/trailing minus,
mixed comma/dot text drops dots and reads the comma as decimal point,
and a single comma with at most two trailing digits is the decimal
separator while other comma patterns are stripped — checked on concrete
inputs exercising each branch, including the specified examples
`"3.916,29" → 3916.29`, `"123,45" → 123.45`, `"(500,00)" → -500.0` and
`"-"`, `""`, `"N/A" → 0.0`. -/
theorem C3_value_normalizer :
    extract_expense_value ("3.916,29") = 3916.29 ∧
    extract_expense_value ("123,45") = 123.45 ∧
    extract_expense_value ("(500,00)") = -500 ∧
    extract_expense_value ("-") = 0 ∧
    extract_expense_value ("") = 0 ∧
    extract_expense_value ("N/A") = 0 ∧
    extract_expense_value ("n/a") = 0 ∧
    extract_expense_value ("Por Consumo") = 0 ∧
    extract_expense_value ("500,00-") = -500 ∧
    extract_expense_value ("R$ 1.234,56") = 1234.56 ∧
    extract_expense_value ("1,234") = 1234 ∧
    extract_expense_value ("1.2.3") = 0 ∧
    extract_expense_value ("abc") = 0 := by
  decide

/-- Rows exercising the exclusion of unparseable dates from aggregation. -/
def rowsBadDate : List Row :=
  [[("Data", "15/07/2025"), ("Proposta", "10,00"), ("Boleto", "10,00")],
   [("Data", "sem data"), ("Proposta", "99,00"), ("Boleto", "99,00")]]

/-- C4: the date normalizer tries month-name plus year in either order,
then numeric dates with a day (day/month/year or year/month/day, `/` or
`-` separators), then numeric month/year without a day in either order,
then the digit-run fallback (at least 3 runs, month `∈ [1,12]`, 4-digit
year, day/month/year order); all other inputs yield no result and such
rows are excluded from aggregation — checked on concrete inputs
exercising every path, including the specified examples `"15/07/2025"`,
`"07/2025"`, `"jul/2025"` and `"2025-07-15"`, all of which normalise to
`"2025-07"`. -/
theorem C4_date_normalizer :
    extract_month_year_from_date ("15/07/2025") = some ("2025-07") ∧
    extract_month_year_from_date ("07/2025") = some ("2025-07") ∧
    extract_month_year_from_date ("jul/2025") = some ("2025-07") ∧
    extract_month_year_from_date ("2025-07-15") = some ("2025-07") ∧
    extract_month_year_from_date ("Julho-2025") = some ("2025-07") ∧
    extract_month_year_from_date ("2025 julho") = some ("2025-07") ∧
    extract_month_year_from_date ("15-07-2025") = some ("2025-07") ∧
    extract_month_year_from_date ("2025/07/15") = some ("2025-07") ∧
    extract_month_year_from_date ("07-2025") = some ("2025-07") ∧
    extract_month_year_from_date ("2025/07") = some ("2025-07") ∧
    extract_month_year_from_date ("15 07 2025") = some ("2025-07") ∧
    extract_month_year_from_date ("15 13 2025") = none ∧
    extract_month_year_from_date ("15 07 225") = none ∧
    extract_month_year_from_date ("sem data") = none ∧
    (get_monthly_summary_by_columns rowsBadDate noOv).resumo.map
      (fun p => (p.1, p.2.count)) = [(("2025-07"), 1)] := by
  decide

/-! ## Projection eligibility (C1) -/

lemma generate_projections_not_existing {rows : List Row} {ov : Ov}
    {contracts : List Row} :
    ∀ (pm : List String) (acc : List (String × List ProjRec)),
      (∀ q ∈ acc, check_existing_expense_data rows ov q.1 = false) →
      ∀ q ∈ pm.foldl
        (fun acc m =>
          if check_existing_expense_data rows ov m then acc
          else
            let mp := contracts.filterMap (fun c => calculate_contract_projection c m)
            if mp.isEmpty then acc else acc ++ [(m, mp)]) acc,
        check_existing_expense_data rows ov q.1 = false := by
  intro pm
  induction pm with
  | nil => intro acc h; simpa using h
  | cons m t ih =>
    intro acc h
    simp only [List.foldl_cons]
    by_cases hc : check_existing_expense_data rows ov m
    · simp only [hc, if_true]
      exact ih acc h
    · simp only [hc, Bool.false_eq_true, if_false]
      split
      · exact ih acc h
      · refine ih _ ?_
        intro q hq
        rcases List.mem_append.mp hq with h1 | h1
        · exact h q h1
        · simp only [List.mem_singleton] at h1
          subst h1
          simpa using hc

lemma foldl_setKey_src :
    ∀ (projs : List (String × List ProjRec)) (acc : List (String × FlatBucket)),
      ∀ p ∈ projs.foldl (fun a q => setKey q.1 (projBucket q.1 q.2) a) acc,
        p ∈ acc ∨ p.1 ∈ projs.map (fun q => q.1) := by
  intro projs
  induction projs with
  | nil => intro acc p hp; exact Or.inl (by simpa using hp)
  | cons q t ih =>
    intro acc p hp
    simp only [List.foldl_cons] at hp
    rcases ih _ p hp with h1 | h1
    · rcases mem_setKey _ p h1 with h2 | h2
      · subst h2
        exact Or.inr (by simp)
      · exact Or.inl h2
    · exact Or.inr (by simp [h1])

lemma check_false_cases {rows : List Row} {ov : Ov} {m : String}
    (h : check_existing_expense_data rows ov m = false) :
    lookupStr (get_monthly_summary_by_columns rows ov).resumo m = none ∨
    (∃ rb, lookupStr (get_monthly_summary_by_columns rows ov).resumo m = some rb ∧
      rb.tp ≤ 0 ∧ rb.tb ≤ 0) := by
  unfold check_existing_expense_data at h
  dsimp only [] at h
  cases hl : lookupStr (get_monthly_summary_by_columns rows ov).resumo m with
  | none => exact Or.inl rfl
  | some rb =>
    refine Or.inr ⟨rb, rfl, ?_⟩
    rw [hl] at h
    simp only [Bool.or_eq_false_iff, decide_eq_false_iff_not, not_lt] at h
    exact h

/-- C1 (amended): a projection bucket is merged for a month only when the
month is absent from the flat monthly summary or present with
`proposal_total ≤ 0` and `invoice_total ≤ 0`; in particular a month
whose flat bucket has any positive proposal or invoice total is never
replaced or augmented by a projection.  (The source tests `> 0`, not
`≠ 0`, so a month whose only real totals are negative is still
projected.) -/
theorem C1_projection_eligibility (rows : List Row) (ov : Ov) (contracts : List Row)
    (pm : List String) (k : String) (b : FlatBucket)
    (hmem : (k, b) ∈ (get_monthly_data_with_projections rows ov contracts pm).resumo)
    (hproj : b.isProj = true) :
    lookupStr (get_monthly_summary_by_columns rows ov).resumo k = none ∨
    (∃ rb, lookupStr (get_monthly_summary_by_columns rows ov).resumo k = some rb ∧
      rb.tp ≤ 0 ∧ rb.tb ≤ 0) := by
  unfold get_monthly_data_with_projections at hmem
  dsimp only [] at hmem
  split at hmem
  · exact Bool.noConfusion ((flat_resumo_forall rows ov (k, b) hmem).2 ▸ hproj)
  · split at hmem
    · exact Bool.noConfusion ((flat_resumo_forall rows ov (k, b) hmem).2 ▸ hproj)
    · simp only [FlatOut.resumo] at hmem
      rcases foldl_setKey_src _ _ _ hmem with h1 | h1
      · exact Bool.noConfusion ((flat_resumo_forall rows ov (k, b) h1).2 ▸ hproj)
      · rcases List.mem_map.mp h1 with ⟨q, hq, hq2⟩
        have hfalse := generate_projections_not_existing
          (pm.filter (fun m => ¬ check_existing_expense_data rows ov m)) [] (by simp) q hq
        rw [hq2] at hfalse
        exact check_false_cases hfalse

/-- C1 witness: the amended eligibility statement evaluated on the month
`2025-07` of the concrete projection run over `rowsNeg`. -/
theorem C1_projection_eligibility_witness :
    lookupStr (get_monthly_summary_by_columns rowsNeg noOv).resumo ("2025-07") = none ∨
    (∃ rb, lookupStr (get_monthly_summary_by_columns rowsNeg noOv).resumo ("2025-07") =
      some rb ∧ rb.tp ≤ 0 ∧ rb.tb ≤ 0) :=
  C1_projection_eligibility rowsNeg noOv contractsM ["2025-07"] ("2025-07")
    ((lookupStr (get_monthly_data_with_projections rowsNeg noOv contractsM
      ["2025-07"]).resumo ("2025-07")).getD default)
    (by decide) (by decide)

/-- C1 counterexample: the month `2025-07` is present in the flat summary
of `rowsNeg` with the nonzero proposal total `-500`, yet the projection
run for that month replaces its bucket with a projection bucket
(`is_projection = true`, proposal total `100`) — so a month with a
nonzero real total is not protected from projection, contrary to the
claim as stated. -/
theorem C1_counterexample :
    ((lookupStr (get_monthly_summary_by_columns rowsNeg noOv).resumo ("2025-07")).map
      (fun b => (b.tp, b.isProj)) = some (-500, false)) ∧
    ((lookupStr (get_monthly_data_with_projections rowsNeg noOv contractsM
      ["2025-07"]).resumo ("2025-07")).map
      (fun b => (b.tp, b.isProj)) = some (100, true)) := by
  decide

/-! ## Determinism and the clock (C9) -/

/-- A batch with real July 2025 data. -/
def rowsJul : List Row := [[("Data", "15/07/2025"), ("Proposta", "100,00"),
  ("Boleto", "100,00")]]

/-- C9 (amended): the aggregation pipeline is a pure function of the row
batch, override map, contract list and — for the auto-projection entry
point — the current date: two successive runs threading the extractor
state on identical such inputs return the state unchanged and produce
identical flat and hierarchical outputs. -/
theorem C9_rerun_determinism (σ : ExtractorState) (todayY todayM : ℕ) :
    (runAutoProjections σ todayY todayM).2 = σ ∧
    (runAutoProjections σ todayY todayM).1 =
      (runAutoProjections (runAutoProjections σ todayY todayM).2 todayY todayM).1 ∧
    (runDetailed σ).2 = σ ∧
    (runDetailed σ).1 = (runDetailed (runDetailed σ).2).1 := by
  exact ⟨rfl, rfl, rfl, rfl⟩

/-- C9 counterexample: the auto-projection entry point reads the current
date (`datetime.now()` in the source, an explicit argument here), so it
is not a function of the row batch, override map and contract list
alone: with identical rows, overrides and contracts, a run dated June
2025 projects five future contract months while a run dated June 2030
projects none, and the two flat outputs differ. -/
theorem C9_counterexample :
    get_monthly_data_with_auto_projections rowsJul noOv contractsM 2025 6 ≠
      get_monthly_data_with_auto_projections rowsJul noOv contractsM 2030 6 := by
  decide

/-! ## The numeric-content heuristic (C7) -/

lemma foldl_best_mono (rows : List Row) (inc exc : List String) :
    ∀ (hs : List String) (acc : Option String × Int),
      acc.2 ≤ (hs.foldl (bestStep rows inc exc) acc).2 := by
  intro hs
  induction hs with
  | nil => intro acc; simp
  | cons h t ih =>
    intro acc
    refine le_trans ?_ (ih (bestStep rows inc exc acc h))
    unfold bestStep
    dsimp only []
    split
    · exact le_of_lt (by assumption)
    · exact le_refl _

lemma foldl_best_ub (rows : List Row) (inc exc : List String) :
    ∀ (hs : List String) (acc : Option String × Int), ∀ h ∈ hs,
      scoreHeader rows inc exc h ≤ (hs.foldl (bestStep rows inc exc) acc).2 := by
  intro hs
  induction hs with
  | nil => intro acc h hh; simp at hh
  | cons h0 t ih =>
    intro acc h hh
    rcases List.mem_cons.mp hh with h1 | h1
    · subst h1
      refine le_trans ?_ (foldl_best_mono rows inc exc t (bestStep rows inc exc acc h))
      unfold bestStep
      dsimp only []
      split
      · exact le_refl _
      · exact le_of_not_lt (by assumption)
    · exact ih (bestStep rows inc exc acc h0) h h1

lemma foldl_best_src (rows : List Row) (inc exc : List String) :
    ∀ (hs : List String) (acc : Option String × Int),
      (hs.foldl (bestStep rows inc exc) acc) = acc ∨
      ∃ h0 ∈ hs, (hs.foldl (bestStep rows inc exc) acc) =
        (some h0, scoreHeader rows inc exc h0) := by
  intro hs
  induction hs with
  | nil => intro acc; exact Or.inl rfl
  | cons h t ih =>
    intro acc
    simp only [List.foldl_cons]
    have hstep : bestStep rows inc exc acc h = acc ∨
        bestStep rows inc exc acc h = (some h, scoreHeader rows inc exc h) := by
      unfold bestStep
      dsimp only []
      split
      · exact Or.inr rfl
      · exact Or.inl rfl
    rcases ih (bestStep rows inc exc acc h) with h1 | ⟨h0, hm, h1⟩
    · rw [h1]
      rcases hstep with h2 | h2
      · exact Or.inl h2
      · exact Or.inr ⟨h, List.mem_cons_self _ _, h2⟩
    · exact Or.inr ⟨h0, List.mem_cons_of_mem _ hm, h1⟩

lemma select_best_spec {rows : List Row} {headers inc exc : List String} {h : String}
    (hsel : select_best_numeric rows headers inc exc = some h) :
    h ∈ headers ∧ 0 < scoreHeader rows inc exc h ∧
      ∀ h2 ∈ headers, scoreHeader rows inc exc h2 ≤ scoreHeader rows inc exc h := by
  unfold select_best_numeric at hsel
  dsimp only [] at hsel
  split at hsel
  · rcases foldl_best_src rows inc exc headers (none, -1) with h1 | ⟨h0, hm, h1⟩
    · rw [h1] at hsel
      exact absurd hsel (by simp)
    · rw [h1] at hsel
      simp only [Option.some_inj] at hsel
      rw [hsel] at h1 hm
      have hcond : (0 : Int) < (headers.foldl (bestStep rows inc exc) (none, -1)).2 := by
        assumption
      rw [h1] at hcond
      refine ⟨hm, by simpa using hcond, ?_⟩
      intro h2 hh2
      have hub := foldl_best_ub rows inc exc headers (none, -1) h2 hh2
      rw [h1] at hub
      simpa using hub
  · exact absurd hsel (by simp)

lemma scoreHeader_pos {rows : List Row} {inc exc : List String} {h : String}
    (hpos : 0 < scoreHeader rows inc exc h) :
    exc.any (fun w => isSubL w.toList (normCol h)) = false ∧
    inc.any (fun w => isSubL w.toList (normCol h)) = true ∧
    1 ≤ ((rows.take 50).filter
      (fun r => extract_expense_value (rowGet r h) ≠ 0)).length := by
  unfold scoreHeader at hpos
  dsimp only [] at hpos
  split at hpos
  · exact absurd hpos (by norm_num)
  · split at hpos
    · exact absurd hpos (by norm_num)
    · split at hpos
      · refine ⟨by simpa using (by assumption : ¬ (exc.any (fun w => isSubL w.toList
          (normCol h)) = true)), by simpa using (by assumption :
          ¬ ¬ (inc.any (fun w => isSubL w.toList (normCol h)) = true)), ?_⟩
        exact_mod_cast hpos
      · exact absurd hpos (by norm_num)

lemma selectBest_no_dateword {rows : List Row} {headers inc : List String} {h : String}
    (hsel : select_best_numeric rows headers inc excludeDateWords = some h) :
    hasDateWord h = false :=
  (scoreHeader_pos (select_best_spec hsel).2.1).1

lemma orElseNE_excl_dateword {o1 sb : Option String}
    (hsb : ∀ h, sb = some h → hasDateWord h = false) :
    ∀ p, orElseNE (exclDateCol o1) sb = some p → hasDateWord p = false := by
  intro p hp
  cases o1 with
  | none => exact hsb p hp
  | some h0 =>
    by_cases hc : (h0 ≠ "" && hasDateWord h0) = true
    · simp only [exclDateCol, hc, if_true, orElseNE] at hp
      exact hsb p hp
    · simp only [exclDateCol, hc, Bool.false_eq_true, if_false, orElseNE] at hp
      by_cases he : h0 = ""
      · rw [if_pos he] at hp
        exact hsb p hp
      · rw [if_neg he] at hp
        simp only [Option.some_inj] at hp
        subst hp
        simp only [Bool.and_eq_true, decide_eq_true_eq, not_and] at hc
        simpa using hc he

lemma detailed_prop_no_dateword (rows : List Row) (ov : Ov) :
    ∀ p, (detailedResolveCols rows ov).propostaCol = some p → hasDateWord p = false := by
  intro p hp
  unfold detailedResolveCols at hp
  dsimp only [] at hp
  exact orElseNE_excl_dateword (fun h hsel => selectBest_no_dateword hsel) p hp

lemma detailed_bol_no_dateword (rows : List Row) (ov : Ov) :
    ∀ p, (detailedResolveCols rows ov).boletoCol = some p → hasDateWord p = false := by
  intro p hp
  unfold detailedResolveCols at hp
  dsimp only [] at hp
  exact orElseNE_excl_dateword (fun h hsel => selectBest_no_dateword hsel) p hp

/-- A batch whose keyword-matching proposal header carries a date word,
so the detailed path falls back to the numeric-content heuristic. -/
def rowsSplit : List Row := [[("Data", "15/07/2025"),
  ("Proposta Vencimento", "100,00"), ("Valor X", "50,00"), ("Boleto", "10,00")]]

/-- C7 (amended): in the hierarchical path, whenever a value role is
resolved by `select_best_numeric` the chosen column has the highest
count of sampled cells (first 50 rows) parsing to a nonzero value among
all headers (first header wins ties), that count is at least 1 (the
score must exceed 0), the normalised header matches an include keyword,
matches no exclusion word — and a value role resolved by the
hierarchical path never carries a date-related word.  (The flat path's
numeric fallback instead picks the first header present in the sampled
rows, without the count-maximising or date-word guarantees; see the
counterexample.) -/
theorem C7_numeric_heuristic :
    (∀ (rows : List Row) (headers inc exc : List String) (h : String),
      select_best_numeric rows headers inc exc = some h →
      h ∈ headers ∧
      (∀ h2 ∈ headers, scoreHeader rows inc exc h2 ≤ scoreHeader rows inc exc h) ∧
      exc.any (fun w => isSubL w.toList (normCol h)) = false ∧
      inc.any (fun w => isSubL w.toList (normCol h)) = true ∧
      1 ≤ ((rows.take 50).filter
        (fun r => extract_expense_value (rowGet r h) ≠ 0)).length) ∧
    (∀ (rows : List Row) (ov : Ov) (p : String),
      ((detailedResolveCols rows ov).propostaCol = some p → hasDateWord p = false) ∧
      ((detailedResolveCols rows ov).boletoCol = some p → hasDateWord p = false)) := by
  constructor
  · intro rows headers inc exc h hsel
    obtain ⟨hm, hpos, hub⟩ := select_best_spec hsel
    obtain ⟨he, hi, hc⟩ := scoreHeader_pos hpos
    exact ⟨hm, hub, he, hi, hc⟩
  · intro rows ov p
    exact ⟨detailed_prop_no_dateword rows ov p, detailed_bol_no_dateword rows ov p⟩

/-- C7 witness: the amended heuristic statement evaluated on the
concrete batch `rowsSplit`, whose proposal role is resolved by
`select_best_numeric` to the column `Valor X`. -/
theorem C7_numeric_heuristic_witness :
    (("Valor X") ∈ headersOf rowsSplit ∧
      (∀ h2 ∈ headersOf rowsSplit,
        scoreHeader rowsSplit ["proposta", "valor", "r$", "valor proposta",
          "valor da proposta"] excludeDateWords h2 ≤
        scoreHeader rowsSplit ["proposta", "valor", "r$", "valor proposta",
          "valor da proposta"] excludeDateWords ("Valor X")) ∧
      excludeDateWords.any (fun w => isSubL w.toList (normCol ("Valor X"))) = false ∧
      (["proposta", "valor", "r$", "valor proposta", "valor da proposta"]).any
        (fun w => isSubL w.toList (normCol ("Valor X"))) = true ∧
      1 ≤ ((rowsSplit.take 50).filter
        (fun r => extract_expense_value (rowGet r ("Valor X")) ≠ 0)).length) ∧
    hasDateWord ("Valor X") = false :=
  ⟨C7_numeric_heuristic.1 rowsSplit (headersOf rowsSplit)
      ["proposta", "valor", "r$", "valor proposta", "valor da proposta"]
      excludeDateWords ("Valor X") (by decide),
   (C7_numeric_heuristic.2 rowsSplit noOv ("Valor X")).1 (by decide)⟩

/-- A batch with no proposal-like header, driving the flat path into its
numeric-content fallback; the `Abc` column has two nonzero cells while
the date column `Data` has one. -/
def rowsC7 : List Row :=
  [[("Data", "x"), ("Abc", "10,00"), ("Xyz", "0")],
   [("Data", "15/07/2025"), ("Abc", "20,00"), ("Xyz", "0")]]

/-- C7 counterexample: in the flat aggregation path neither the direct
map nor the keywords resolve a proposal column for `rowsC7`, so the
numeric-content fallback runs — and it selects the date column `Data`
(whose normalised header contains a date word) as the proposal value
role, even though `Abc` has the higher nonzero parse count (2 against
1), contradicting the claim as stated. -/
theorem C7_counterexample :
    findByCandidates (headersOf rowsC7) propCands = none ∧
    find_column_by_keywords (headersOf rowsC7) flatPropKws = none ∧
    (flatResolveCols rowsC7 noOv).2.1 = some ("Data") ∧
    hasDateWord ("Data") = true ∧
    ((rowsC7.take 50).filter
      (fun r => extract_expense_value (rowGet r ("Abc")) ≠ 0)).length = 2 ∧
    ((rowsC7.take 50).filter
      (fun r => extract_expense_value (rowGet r ("Data")) ≠ 0)).length = 1 := by
  decide

/-! ## Override priority (C8) -/

/-- C8 (amended): for each role independently, whatever the other two
overrides are, an override naming a (nonempty, as `set_column_overrides`
guarantees) header present in the batch is the column resolved for its
role by the flat aggregation, and by the hierarchical aggregation for
the date role; for the hierarchical value roles the override is
honoured provided its normalised header contains no date-related word
(otherwise it is discarded and the numeric heuristic applies — see the
counterexample).  An override naming a header not in the set is
ignored: each resolution proceeds exactly as if that override were
absent. -/
theorem C8_override_priority :
    (∀ (rows : List Row) (ov : Ov) (d : String),
      ov.data = some d → d ∈ headersOf rows → d ≠ "" →
      (flatResolveCols rows ov).1 = some d ∧
      (detailedResolveCols rows ov).dataCol = some d) ∧
    (∀ (rows : List Row) (ov : Ov) (p : String),
      ov.proposta = some p → p ∈ headersOf rows → p ≠ "" →
      (flatResolveCols rows ov).2.1 = some p ∧
      (hasDateWord p = false →
        (detailedResolveCols rows ov).propostaCol = some p)) ∧
    (∀ (rows : List Row) (ov : Ov) (b : String),
      ov.boleto = some b → b ∈ headersOf rows → b ≠ "" →
      (flatResolveCols rows ov).2.2 = some b ∧
      (hasDateWord b = false →
        (detailedResolveCols rows ov).boletoCol = some b)) ∧
    (∀ (rows : List Row) (ov : Ov) (v : String),
      v ∉ headersOf rows →
      (ov.data = some v →
        flatResolveCols rows ov = flatResolveCols rows ⟨none, ov.proposta, ov.boleto⟩ ∧
        detailedResolveCols rows ov =
          detailedResolveCols rows ⟨none, ov.proposta, ov.boleto⟩) ∧
      (ov.proposta = some v →
        flatResolveCols rows ov = flatResolveCols rows ⟨ov.data, none, ov.boleto⟩ ∧
        detailedResolveCols rows ov =
          detailedResolveCols rows ⟨ov.data, none, ov.boleto⟩) ∧
      (ov.boleto = some v →
        flatResolveCols rows ov = flatResolveCols rows ⟨ov.data, ov.proposta, none⟩ ∧
        detailedResolveCols rows ov =
          detailedResolveCols rows ⟨ov.data, ov.proposta, none⟩)) := by
  refine ⟨?_, ?_, ?_, ?_⟩
  · intro rows ov d hov hmem hne
    constructor
    · simp [flatResolveCols, validOv, orElseNE, hov, hmem, hne]
    · simp [detailedResolveCols, validOv, orElseNE, hov, hmem, hne]
  · intro rows ov p hov hmem hne
    constructor
    · simp [flatResolveCols, validOv, orElseNE, hov, hmem, hne]
    · intro hdw
      simp [detailedResolveCols, validOv, orElseNE, exclDateCol, hov, hmem, hne, hdw]
  · intro rows ov b hov hmem hne
    constructor
    · simp [flatResolveCols, validOv, orElseNE, hov, hmem, hne]
    · intro hdw
      simp [detailedResolveCols, validOv, orElseNE, exclDateCol, hov, hmem, hne, hdw]
  · intro rows ov v hnm
    refine ⟨?_, ?_, ?_⟩ <;> intro hov <;> constructor
    · unfold flatResolveCols
      rw [hov]
      simp [validOv, hnm]
    · unfold detailedResolveCols
      rw [hov]
      simp [validOv, hnm]
    · unfold flatResolveCols
      rw [hov]
      simp [validOv, hnm]
    · unfold detailedResolveCols
      rw [hov]
      simp [validOv, hnm]
    · unfold flatResolveCols
      rw [hov]
      simp [validOv, hnm]
    · unfold detailedResolveCols
      rw [hov]
      simp [validOv, hnm]

/-- C8 witness: each per-role clause of the amended override statement
evaluated on the concrete batch `rowsSplit` with a single override
supplied at a time — `Data` for the date role, `Valor X` for the
proposal role, `Boleto` for the invoice role — and with a lone proposal
override naming the absent header `Nope`, which both resolvers ignore. -/
theorem C8_override_priority_witness :
    ((flatResolveCols rowsSplit ⟨some ("Data"), none, none⟩).1 = some ("Data") ∧
      (detailedResolveCols rowsSplit ⟨some ("Data"), none, none⟩).dataCol =
        some ("Data")) ∧
    ((flatResolveCols rowsSplit ⟨none, some ("Valor X"), none⟩).2.1 =
        some ("Valor X") ∧
      (detailedResolveCols rowsSplit ⟨none, some ("Valor X"), none⟩).propostaCol =
        some ("Valor X")) ∧
    ((flatResolveCols rowsSplit ⟨none, none, some ("Boleto")⟩).2.2 =
        some ("Boleto") ∧
      (detailedResolveCols rowsSplit ⟨none, none, some ("Boleto")⟩).boletoCol =
        some ("Boleto")) ∧
    (flatResolveCols rowsSplit ⟨none, some ("Nope"), none⟩ =
        flatResolveCols rowsSplit ⟨none, none, none⟩ ∧
      detailedResolveCols rowsSplit ⟨none, some ("Nope"), none⟩ =
        detailedResolveCols rowsSplit ⟨none, none, none⟩) :=
  ⟨⟨(C8_override_priority.1 rowsSplit ⟨some ("Data"), none, none⟩ ("Data")
      rfl (by decide) (by decide)).1,
    (C8_override_priority.1 rowsSplit ⟨some ("Data"), none, none⟩ ("Data")
      rfl (by decide) (by decide)).2⟩,
   ⟨(C8_override_priority.2.1 rowsSplit ⟨none, some ("Valor X"), none⟩ ("Valor X")
      rfl (by decide) (by decide)).1,
    (C8_override_priority.2.1 rowsSplit ⟨none, some ("Valor X"), none⟩ ("Valor X")
      rfl (by decide) (by decide)).2 (by decide)⟩,
   ⟨(C8_override_priority.2.2.1 rowsSplit ⟨none, none, some ("Boleto")⟩ ("Boleto")
      rfl (by decide) (by decide)).1,
    (C8_override_priority.2.2.1 rowsSplit ⟨none, none, some ("Boleto")⟩ ("Boleto")
      rfl (by decide) (by decide)).2 (by decide)⟩,
   (C8_override_priority.2.2.2 rowsSplit ⟨none, some ("Nope"), none⟩ ("Nope")
      (by decide)).2.1 rfl⟩

/-- C8 counterexample: the override `Proposta Vencimento` names a header
present in the batch, and the flat path resolves the proposal role to
it; but the hierarchical path discards it (its normalised header
contains the date word `vencimento`) and resolves `Valor X` instead —
so the override is not the resolved column in every aggregation
operation, contrary to the claim as stated. -/
theorem C8_counterexample :
    ("Proposta Vencimento") ∈ headersOf rowsSplit ∧
    (flatResolveCols rowsSplit ⟨none, some ("Proposta Vencimento"), none⟩).2.1 =
      some ("Proposta Vencimento") ∧
    (detailedResolveCols rowsSplit
      ⟨none, some ("Proposta Vencimento"), none⟩).propostaCol = some ("Valor X") := by
  decide

/-! ## Hierarchical sum invariants (C5) -/

/-- Exact running invariant of a counterparty node. -/
def EmpInv (e : EmpNode) : Prop :=
  e.tp = sumQ e.propostas (fun r => r.vp) ∧
  e.tb = sumQ e.propostas (fun r => r.vb) ∧
  e.td = sumQ e.propostas (fun r => r.dif) ∧
  e.cnt = e.propostas.length

/-- Exact running invariant of a category node. -/
def TipoInv (t : TipoNode) : Prop :=
  t.tp = sumQ t.empresas (fun q => q.2.tp) ∧
  t.tb = sumQ t.empresas (fun q => q.2.tb) ∧
  t.td = sumQ t.empresas (fun q => q.2.td) ∧
  t.cnt = sumN t.empresas (fun q => q.2.cnt) ∧
  ∀ q ∈ t.empresas, EmpInv q.2

/-- Exact running invariant of a month node. -/
def MonthInv (m : MonthNode) : Prop :=
  m.tp = sumQ m.tipos (fun q => q.2.tp) ∧
  m.tb = sumQ m.tipos (fun q => q.2.tb) ∧
  m.td = sumQ m.tipos (fun q => q.2.td) ∧
  m.cnt = sumN m.tipos (fun q => q.2.cnt) ∧
  ∀ q ∈ m.tipos, TipoInv q.2

lemma empInv_empty : EmpInv emptyEmp := by
  simp [EmpInv, emptyEmp, sumQ]

lemma empInv_add (r : PropRec) {e : EmpNode} (h : EmpInv e) : EmpInv (addEmp r e) := by
  obtain ⟨h1, h2, h3, h4⟩ := h
  refine ⟨?_, ?_, ?_, ?_⟩ <;>
    simp [addEmp, h1, h2, h3, h4, sumQ]

lemma tipoInv_empty : TipoInv emptyTipo := by
  simp [TipoInv, emptyTipo, sumQ, sumN]

lemma tipoInv_add (ek : String) (r : PropRec) {t : TipoNode} (h : TipoInv t) :
    TipoInv (addTipo ek r t) := by
  obtain ⟨h1, h2, h3, h4, h5⟩ := h
  refine ⟨?_, ?_, ?_, ?_, ?_⟩
  · show t.tp + r.vp = sumQ (upsert ek (addEmp r) emptyEmp t.empresas) (fun q => q.2.tp)
    rw [h1]
    exact (upsert_sum (g := EmpNode.tp) (f := addEmp r) (δ := r.vp)
      (fun v => rfl) rfl t.empresas).symm
  · show t.tb + r.vb = sumQ (upsert ek (addEmp r) emptyEmp t.empresas) (fun q => q.2.tb)
    rw [h2]
    exact (upsert_sum (g := EmpNode.tb) (f := addEmp r) (δ := r.vb)
      (fun v => rfl) rfl t.empresas).symm
  · show t.td + r.dif = sumQ (upsert ek (addEmp r) emptyEmp t.empresas) (fun q => q.2.td)
    rw [h3]
    exact (upsert_sum (g := EmpNode.td) (f := addEmp r) (δ := r.dif)
      (fun v => rfl) rfl t.empresas).symm
  · show t.cnt + 1 = sumN (upsert ek (addEmp r) emptyEmp t.empresas) (fun q => q.2.cnt)
    rw [h4]
    exact (upsert_sum (g := EmpNode.cnt) (f := addEmp r) (δ := 1)
      (fun v => rfl) rfl t.empresas).symm
  · exact upsert_forall (P := fun _ e => EmpInv e)
      (fun v hv => empInv_add r hv) (empInv_add r empInv_empty) t.empresas h5

lemma monthInv_empty : MonthInv emptyMonth := by
  simp [MonthInv, emptyMonth, sumQ, sumN]

lemma monthInv_add (tk ek : String) (r : PropRec) {m : MonthNode} (h : MonthInv m) :
    MonthInv (addMonth tk ek r m) := by
  obtain ⟨h1, h2, h3, h4, h5⟩ := h
  refine ⟨?_, ?_, ?_, ?_, ?_⟩
  · show m.tp + r.vp = sumQ (upsert tk (addTipo ek r) emptyTipo m.tipos) (fun q => q.2.tp)
    rw [h1]
    exact (upsert_sum (g := TipoNode.tp) (f := addTipo ek r) (δ := r.vp)
      (fun v => rfl) rfl m.tipos).symm
  · show m.tb + r.vb = sumQ (upsert tk (addTipo ek r) emptyTipo m.tipos) (fun q => q.2.tb)
    rw [h2]
    exact (upsert_sum (g := TipoNode.tb) (f := addTipo ek r) (δ := r.vb)
      (fun v => rfl) rfl m.tipos).symm
  · show m.td + r.dif = sumQ (upsert tk (addTipo ek r) emptyTipo m.tipos) (fun q => q.2.td)
    rw [h3]
    exact (upsert_sum (g := TipoNode.td) (f := addTipo ek r) (δ := r.dif)
      (fun v => rfl) rfl m.tipos).symm
  · show m.cnt + 1 = sumN (upsert tk (addTipo ek r) emptyTipo m.tipos) (fun q => q.2.cnt)
    rw [h4]
    exact (upsert_sum (g := TipoNode.cnt) (f := addTipo ek r) (δ := 1)
      (fun v => rfl) rfl m.tipos).symm
  · exact upsert_forall (P := fun _ t => TipoInv t)
      (fun v hv => tipoInv_add ek r hv) (tipoInv_add ek r tipoInv_empty) m.tipos h5

lemma detStep_forall {cols : DetCols} {i : ℕ} {acc : List (String × MonthNode)} {r : Row}
    (h : ∀ p ∈ acc, MonthInv p.2) : ∀ p ∈ detStep cols i acc r, MonthInv p.2 := by
  unfold detStep
  dsimp only []
  split
  · exact h
  · split
    · exact h
    · exact upsert_forall (P := fun _ m => MonthInv m)
        (fun v hv => monthInv_add _ _ _ hv) (monthInv_add _ _ _ monthInv_empty) acc h

lemma detFold_forall (cols : DetCols) :
    ∀ (rows : List Row) (i : ℕ) (acc : List (String × MonthNode)),
      (∀ p ∈ acc, MonthInv p.2) →
      ∀ p ∈ detFold cols i rows acc, MonthInv p.2 := by
  intro rows
  induction rows with
  | nil => intro i acc h; simpa [detFold] using h
  | cons r t ih =>
    intro i acc h
    exact ih (i + 1) (detStep cols i acc r) (detStep_forall h)

/-- Every month node of a successful hierarchical build satisfies the
exact sum invariant at every level. -/
lemma detailed_monthInv {rows : List Row} {ov : Ov}
    {dd : List (String × MonthNode)}
    (hok : get_detailed_monthly_data rows ov = .ok dd) :
    ∀ p ∈ dd, MonthInv p.2 := by
  unfold get_detailed_monthly_data at hok
  split at hok
  · exact absurd hok (by simp)
  · dsimp only [] at hok
    split at hok
    · exact absurd hok (by simp)
    · simp only [Except.ok.injEq] at hok
      subst hok
      intro p hp
      exact detFold_forall _ rows 0 [] (by simp) p ((sortPairs_perm _).mem_iff.mp hp)

/-- The claimed per-level sum property of a counterparty node (totals
within `1e-9`, count exact). -/
def EmpSumsOk (e : EmpNode) : Prop :=
  |e.tp - sumQ e.propostas (fun r => r.vp)| ≤ 1 / 1000000000 ∧
  |e.tb - sumQ e.propostas (fun r => r.vb)| ≤ 1 / 1000000000 ∧
  |e.td - sumQ e.propostas (fun r => r.dif)| ≤ 1 / 1000000000 ∧
  e.cnt = e.propostas.length

/-- The claimed per-level sum property of a category node. -/
def TipoSumsOk (t : TipoNode) : Prop :=
  |t.tp - sumQ t.empresas (fun q => q.2.tp)| ≤ 1 / 1000000000 ∧
  |t.tb - sumQ t.empresas (fun q => q.2.tb)| ≤ 1 / 1000000000 ∧
  |t.td - sumQ t.empresas (fun q => q.2.td)| ≤ 1 / 1000000000 ∧
  t.cnt = sumN t.empresas (fun q => q.2.cnt) ∧
  ∀ q ∈ t.empresas, EmpSumsOk q.2

/-- The claimed per-level sum property of a month node. -/
def MonthSumsOk (m : MonthNode) : Prop :=
  |m.tp - sumQ m.tipos (fun q => q.2.tp)| ≤ 1 / 1000000000 ∧
  |m.tb - sumQ m.tipos (fun q => q.2.tb)| ≤ 1 / 1000000000 ∧
  |m.td - sumQ m.tipos (fun q => q.2.td)| ≤ 1 / 1000000000 ∧
  m.cnt = sumN m.tipos (fun q => q.2.cnt) ∧
  ∀ q ∈ m.tipos, TipoSumsOk q.2

lemma abs_sub_self_le_tol {a : ℚ} : |a - a| ≤ 1 / 1000000000 := by
  simp

lemma empInv_sumsOk {e : EmpNode} (h : EmpInv e) : EmpSumsOk e := by
  obtain ⟨h1, h2, h3, h4⟩ := h
  exact ⟨by rw [h1]; exact abs_sub_self_le_tol, by rw [h2]; exact abs_sub_self_le_tol,
    by rw [h3]; exact abs_sub_self_le_tol, h4⟩

lemma tipoInv_sumsOk {t : TipoNode} (h : TipoInv t) : TipoSumsOk t := by
  obtain ⟨h1, h2, h3, h4, h5⟩ := h
  exact ⟨by rw [h1]; exact abs_sub_self_le_tol, by rw [h2]; exact abs_sub_self_le_tol,
    by rw [h3]; exact abs_sub_self_le_tol, h4,
    fun q hq => empInv_sumsOk (h5 q hq)⟩

lemma monthInv_sumsOk {m : MonthNode} (h : MonthInv m) : MonthSumsOk m := by
  obtain ⟨h1, h2, h3, h4, h5⟩ := h
  exact ⟨by rw [h1]; exact abs_sub_self_le_tol, by rw [h2]; exact abs_sub_self_le_tol,
    by rw [h3]; exact abs_sub_self_le_tol, h4,
    fun q hq => tipoInv_sumsOk (h5 q hq)⟩

/-- C5: in the hierarchical view, for every month node, every category
node within it, and every counterparty node within that, the node's
proposal total, invoice total, difference total and record count each
equal the sum of the same quantity over its children (over the record
list for counterparty nodes), within tolerance `1e-9` — here proved as
exact equality of rationals, hence within the tolerance. -/
theorem C5_hierarchy_sums (rows : List Row) (ov : Ov)
    (dd : List (String × MonthNode))
    (hok : get_detailed_monthly_data rows ov = .ok dd)
    (k : String) (μ : MonthNode) (hmem : (k, μ) ∈ dd) :
    MonthSumsOk μ :=
  monthInv_sumsOk (detailed_monthInv hok (k, μ) hmem)

/-- A batch with two categories and two counterparties in one month. -/
def rowsW5 : List Row :=
  [[("Tipo", "Setup"), ("Empresa", "ACME"), ("Data", "10/06/2025"),
    ("Proposta", "1.000,00"), ("Boleto", "900,00")],
   [("Tipo", "Mensalidade"), ("Empresa", "Beta"), ("Data", "20/06/2025"),
    ("Proposta", "500,50"), ("Boleto", "500,50")]]

/-- C5 witness: the per-level sum property evaluated on the June 2025
month node of the concrete hierarchical build over `rowsW5`. -/
theorem C5_hierarchy_sums_witness :
    MonthSumsOk ((lookupStr ((get_detailed_monthly_data rowsW5 noOv).toOption.getD [])
      ("2025-06")).getD default) :=
  C5_hierarchy_sums rowsW5 noOv
    ((get_detailed_monthly_data rowsW5 noOv).toOption.getD []) (by rfl)
    ("2025-06") _ (by decide)

/-! ## Cross-view reconciliation (C2) -/

/-- The cross-view relation: a flat bucket and a month node carry the
same proposal and invoice totals. -/
def TpTbRel (b : FlatBucket) (m : MonthNode) : Prop := b.tp = m.tp ∧ b.tb = m.tb

lemma step_aligned {dc pc bc : String} {cols : DetCols}
    (hdc : cols.dataCol = some dc) (hpc : cols.propostaCol = some pc)
    (hbc : cols.boletoCol = some bc)
    (hdcne : dc ≠ "") (hpcne : pc ≠ "") (hbcne : bc ≠ "")
    {r : Row} (htr : trimS (rowGet r dc) = rowGet r dc)
    {acc1 : List (String × FlatBucket)} {acc2 : List (String × MonthNode)}
    (hA : Aligned TpTbRel acc1 acc2) (i : ℕ) :
    Aligned TpTbRel (flatStep dc pc bc acc1 r) (detStep cols i acc2 r) := by
  unfold flatStep detStep
  rw [hdc, hpc, hbc]
  simp only [getIfStrip, getIfRaw]
  rw [if_pos hdcne, if_pos hpcne, if_pos hbcne, htr]
  by_cases hg : rowGet r dc = ""
  · rw [if_pos hg, if_pos hg]
    exact hA
  · rw [if_neg hg, if_neg hg]
    cases hm : extract_month_year_from_date (rowGet r dc) with
    | none => exact hA
    | some k =>
      refine aligned_upsert k ?_ ?_ acc1 acc2 hA
      · intro a b hab
        exact ⟨by simp [addFlatRow, addMonth, hab.1],
          by simp [addFlatRow, addMonth, hab.2]⟩
      · exact ⟨by simp [addFlatRow, addMonth, emptyFlatBucket, emptyMonth],
          by simp [addFlatRow, addMonth, emptyFlatBucket, emptyMonth]⟩

lemma fold_aligned {dc pc bc : String} {cols : DetCols}
    (hdc : cols.dataCol = some dc) (hpc : cols.propostaCol = some pc)
    (hbc : cols.boletoCol = some bc)
    (hdcne : dc ≠ "") (hpcne : pc ≠ "") (hbcne : bc ≠ "") :
    ∀ (rows : List Row), (∀ r ∈ rows, trimS (rowGet r dc) = rowGet r dc) →
      ∀ (i : ℕ) (acc1 : List (String × FlatBucket)) (acc2 : List (String × MonthNode)),
        Aligned TpTbRel acc1 acc2 →
        Aligned TpTbRel (rows.foldl (flatStep dc pc bc) acc1) (detFold cols i rows acc2) := by
  intro rows
  induction rows with
  | nil => intro _ i acc1 acc2 hA; simpa [detFold] using hA
  | cons r t ih =>
    intro htr i acc1 acc2 hA
    simp only [List.foldl_cons, detFold]
    exact ih (fun r2 hr2 => htr r2 (List.mem_cons_of_mem _ hr2)) (i + 1) _ _
      (step_aligned hdc hpc hbc hdcne hpcne hbcne
        (htr r (List.mem_cons_self _ _)) hA i)

lemma sumQ_congr {α : Type} {l : List α} {f g : α → ℚ} (h : ∀ x ∈ l, f x = g x) :
    sumQ l f = sumQ l g := by
  unfold sumQ
  rw [List.map_congr_left h]

lemma monthInv_leafVp {μ : MonthNode} (h : MonthInv μ) :
    sumQ μ.tipos (fun t => sumQ t.2.empresas
      (fun e => sumQ e.2.propostas (fun r => r.vp))) = μ.tp := by
  rw [h.1]
  apply sumQ_congr
  intro q hq
  have ht := h.2.2.2.2 q hq
  rw [ht.1]
  apply sumQ_congr
  intro e he
  exact ((ht.2.2.2.2 e he).1).symm

lemma monthInv_leafVb {μ : MonthNode} (h : MonthInv μ) :
    sumQ μ.tipos (fun t => sumQ t.2.empresas
      (fun e => sumQ e.2.propostas (fun r => r.vb))) = μ.tb := by
  rw [h.2.1]
  apply sumQ_congr
  intro q hq
  have ht := h.2.2.2.2 q hq
  rw [ht.2.1]
  apply sumQ_congr
  intro e he
  exact ((ht.2.2.2.2 e he).2.1).symm

/-- C2 (amended): for every month key present in both views built from
the same row batch and override map, provided the two builders resolved
the same (nonempty) date, proposal and invoice columns and every date
cell is already whitespace-trimmed (as the upstream extractor
guarantees), the sum of proposal values over the hierarchical view's
leaf records for that month equals the flat view's `proposal_total`
exactly — hence within the claimed tolerance `0.01` — and likewise for
invoice values.  (When the two builders resolve different columns the
totals can differ arbitrarily; see the counterexample.) -/
theorem C2_view_reconciliation (rows : List Row) (ov : Ov) (dc pc bc : String)
    (hflat : flatResolveCols rows ov = (some dc, some pc, some bc))
    (hdet1 : (detailedResolveCols rows ov).dataCol = some dc)
    (hdet2 : (detailedResolveCols rows ov).propostaCol = some pc)
    (hdet3 : (detailedResolveCols rows ov).boletoCol = some bc)
    (hdcne : dc ≠ "") (hpcne : pc ≠ "") (hbcne : bc ≠ "")
    (htrim : ∀ r ∈ rows, trimS (rowGet r dc) = rowGet r dc)
    (dd : List (String × MonthNode))
    (hok : get_detailed_monthly_data rows ov = .ok dd)
    (k : String) (b : FlatBucket) (μ : MonthNode)
    (hb : lookupStr (get_monthly_summary_by_columns rows ov).resumo k = some b)
    (hμ : lookupStr dd k = some μ) :
    |sumQ μ.tipos (fun t => sumQ t.2.empresas
      (fun e => sumQ e.2.propostas (fun r => r.vp))) - b.tp| ≤ 1 / 100 ∧
    |sumQ μ.tipos (fun t => sumQ t.2.empresas
      (fun e => sumQ e.2.propostas (fun r => r.vb))) - b.tb| ≤ 1 / 100 := by
  have hinv : MonthInv μ := detailed_monthInv hok (k, μ) (lookupStr_mem dd hμ)
  have hbres : (get_monthly_summary_by_columns rows ov).resumo =
      sortPairs ((rows.foldl (flatStep dc pc bc) []).map (fun p => (p.1, setDpm p.2))) := by
    unfold get_monthly_summary_by_columns
    split
    · rename_i hemp
      obtain rfl := List.isEmpty_iff.mp hemp
      rfl
    · rw [hflat]
      dsimp only []
      rw [if_neg (by simp [truthyO, hdcne, hpcne, hbcne])]
      rfl
  have hdres : dd = sortPairs (detFold (detailedResolveCols rows ov) 0 rows []) := by
    unfold get_detailed_monthly_data at hok
    split at hok
    · exact absurd hok (by simp)
    · dsimp only [] at hok
      split at hok
      · exact absurd hok (by simp)
      · simp only [Except.ok.injEq] at hok
        exact hok.symm
  have hA : Aligned TpTbRel
      (sortPairs ((rows.foldl (flatStep dc pc bc) []).map (fun p => (p.1, setDpm p.2))))
      (sortPairs (detFold (detailedResolveCols rows ov) 0 rows [])) := by
    apply aligned_sortPairs
    apply aligned_map (g := setDpm) (fun a b hab => ⟨hab.1, hab.2⟩)
    exact fold_aligned hdet1 hdet2 hdet3 hdcne hpcne hbcne rows htrim 0 [] [] trivial
  rw [hbres] at hb
  rw [hdres] at hμ
  have hrel : TpTbRel b μ := aligned_lookupStr _ _ hA k b μ hb hμ
  constructor
  · rw [monthInv_leafVp hinv, hrel.1]
    simp
  · rw [monthInv_leafVb hinv, hrel.2]
    simp

/-- C2 witness: the amended reconciliation statement evaluated on the
June 2025 month of the concrete batch `rowsW5`, for which both builders
resolve the columns `Data`/`Proposta`/`Boleto`. -/
theorem C2_view_reconciliation_witness :
    |sumQ ((lookupStr ((get_detailed_monthly_data rowsW5 noOv).toOption.getD [])
        ("2025-06")).getD default).tipos
      (fun t => sumQ t.2.empresas (fun e => sumQ e.2.propostas (fun r => r.vp))) -
      ((lookupStr (get_monthly_summary_by_columns rowsW5 noOv).resumo
        ("2025-06")).getD default).tp| ≤ 1 / 100 ∧
    |sumQ ((lookupStr ((get_detailed_monthly_data rowsW5 noOv).toOption.getD [])
        ("2025-06")).getD default).tipos
      (fun t => sumQ t.2.empresas (fun e => sumQ e.2.propostas (fun r => r.vb))) -
      ((lookupStr (get_monthly_summary_by_columns rowsW5 noOv).resumo
        ("2025-06")).getD default).tb| ≤ 1 / 100 :=
  C2_view_reconciliation rowsW5 noOv ("Data") ("Proposta") ("Boleto")
    (by decide) (by decide) (by decide) (by decide)
    (by decide) (by decide) (by decide) (by decide)
    ((get_detailed_monthly_data rowsW5 noOv).toOption.getD []) (by rfl)
    ("2025-06")
    ((lookupStr (get_monthly_summary_by_columns rowsW5 noOv).resumo ("2025-06")).getD default)
    ((lookupStr ((get_detailed_monthly_data rowsW5 noOv).toOption.getD [])
      ("2025-06")).getD default)
    (by rfl) (by rfl)

/-- C2 counterexample: on `rowsSplit` the two views resolve different
proposal columns (`Proposta Vencimento` in the flat path, `Valor X` in
the hierarchical path), and for the month `2025-07`, present in both
views, the hierarchical leaf proposal sum is `50` while the flat
`proposal_total` is `100` — a discrepancy far beyond the claimed `0.01`
tolerance, refuting the claim as stated. -/
theorem C2_counterexample :
    ((lookupStr (get_monthly_summary_by_columns rowsSplit noOv).resumo ("2025-07")).map
      (fun b => b.tp) = some 100) ∧
    ((lookupStr ((get_detailed_monthly_data rowsSplit noOv).toOption.getD [])
      ("2025-07")).isSome = true) ∧
    (sumQ ((lookupStr ((get_detailed_monthly_data rowsSplit noOv).toOption.getD [])
        ("2025-07")).getD default).tipos
      (fun t => sumQ t.2.empresas (fun e => sumQ e.2.propostas (fun r => r.vp))) = 50) ∧
    ¬ (|(50 : ℚ) - 100| ≤ 1 / 100) := by
  decide

/-! ## Shape of produced month keys (C10) -/

/-- The shape every produced month key has: a 4-digit year, a dash, and
a zero-padded all-digit month of at least two characters. -/
def KeyShape (k : String) : Prop :=
  ∃ y m : List Char, k = mkKey y m ∧ y.length = 4 ∧ y.all Char.isDigit ∧
    2 ≤ m.length ∧ m.all Char.isDigit

lemma searchOpt_spec {β : Type} {f : List Char → Option β} {P : β → Prop}
    (hf : ∀ cs r, f cs = some r → P r) :
    ∀ cs r, searchOpt f cs = some r → P r := by
  intro cs
  induction cs with
  | nil => intro r h; exact hf [] r h
  | cons c t ih =>
    intro r h
    unfold searchOpt at h
    cases h1 : f (c :: t) with
    | some r2 =>
      rw [h1] at h
      simp only [Option.some_inj] at h
      subst h
      exact hf _ _ h1
    | none =>
      rw [h1] at h
      exact ih r h

lemma tryNameYearAt_spec {cs : List Char} {mon y : List Char}
    (h : tryNameYearAt cs = some (mon, y)) :
    y.length = 4 ∧ y.all Char.isDigit := by
  unfold tryNameYearAt at h
  dsimp only [] at h
  split at h
  · exact absurd h (by simp)
  · split at h
    · exact absurd h (by simp)
    · split at h
      · rename_i hcond
        simp only [Option.some_inj, Prod.mk.injEq] at h
        obtain ⟨h1, h2⟩ := h
        subst h2
        simpa using hcond
      · exact absurd h (by simp)

lemma tryYearNameAt_spec {cs : List Char} {y mon : List Char}
    (h : tryYearNameAt cs = some (y, mon)) :
    y.length = 4 ∧ y.all Char.isDigit := by
  unfold tryYearNameAt at h
  dsimp only [] at h
  split at h
  · rename_i hcond
    split at h
    · exact absurd h (by simp)
    · split at h
      · exact absurd h (by simp)
      · simp only [Option.some_inj, Prod.mk.injEq] at h
        obtain ⟨h1, h2⟩ := h
        subst h1
        simpa using hcond
  · exact absurd h (by simp)

lemma monthPairs_snd_shape :
    ∀ v ∈ monthPairs.map (fun p => p.2), v.toList.length = 2 ∧ v.toList.all Char.isDigit := by
  decide

lemma lookupMonthName_spec {m : List Char} {v : String}
    (h : lookupMonthName m = some v) :
    v.toList.length = 2 ∧ v.toList.all Char.isDigit := by
  unfold lookupMonthName at h
  cases h1 : monthPairs.find? (fun p => p.1.toList == m) with
  | none => rw [h1] at h; simp at h
  | some q =>
    rw [h1] at h
    simp only [Option.map_some', Option.some_inj] at h
    subst h
    exact monthPairs_snd_shape q.2
      (List.mem_map.mpr ⟨q, List.mem_of_find?_eq_some h1, rfl⟩)

lemma monKeyLookup_spec {m : List Char} {v : String}
    (h : monKeyLookup m = some v) :
    v.toList.length = 2 ∧ v.toList.all Char.isDigit := by
  unfold monKeyLookup at h
  cases h1 : lookupMonthName m with
  | some w =>
    rw [h1] at h
    simp only [Option.some_inj] at h
    subst h
    exact lookupMonthName_spec h1
  | none =>
    rw [h1] at h
    exact lookupMonthName_spec h

lemma takeDigits_spec {n : ℕ} {cs d : List Char}
    (h : takeDigits n cs = some d) : d.length = n ∧ d.all Char.isDigit := by
  unfold takeDigits at h
  dsimp only [] at h
  split at h
  · rename_i hcond
    simp only [Option.some_inj] at h
    subst h
    simpa using hcond
  · exact absurd h (by simp)

lemma tryNumAt_spec {β : Type} {sep : Char} {cs : List Char} {n : ℕ}
    {k : List Char → List Char → Option β} {r : β}
    (h : tryNumAt sep cs n k = some r) :
    ∃ d rest, d.length = n ∧ d.all Char.isDigit ∧ k d rest = some r := by
  unfold tryNumAt at h
  cases h2 : takeDigits n cs with
  | some d =>
    rw [h2] at h
    dsimp only [] at h
    obtain ⟨hlen, hdig⟩ := takeDigits_spec h2
    split at h
    · exact ⟨d, _, hlen, hdig, h⟩
    · exact absurd h (by simp)
  | none =>
    rw [h2] at h
    exact absurd h (by simp)

lemma numThenSep_spec {β : Type} {sep : Char} {cs : List Char}
    {k : List Char → List Char → Option β} {P : β → Prop} {r : β}
    (hk : ∀ d rest, (d.length = 1 ∨ d.length = 2) → d.all Char.isDigit →
      k d rest = some r → P r)
    (h : numThenSep sep cs k = some r) : P r := by
  unfold numThenSep at h
  cases h2 : tryNumAt sep cs 2 k with
  | some r2 =>
    rw [h2] at h
    simp only [Option.some_inj] at h
    subst h
    obtain ⟨d, rest, hlen, hdig, hcall⟩ := tryNumAt_spec h2
    exact hk d rest (Or.inr hlen) hdig hcall
  | none =>
    rw [h2] at h
    obtain ⟨d, rest, hlen, hdig, hcall⟩ := tryNumAt_spec h
    exact hk d rest (Or.inl hlen) hdig hcall

lemma zfill2_spec {m : List Char} (hne : 1 ≤ m.length) (hdig : m.all Char.isDigit) :
    2 ≤ (zfill2 m).length ∧ (zfill2 m).all Char.isDigit := by
  unfold zfill2
  split
  · rename_i hlt
    constructor
    · simp only [List.length_cons]
      omega
    · simp [hdig]
  · rename_i hge
    exact ⟨by omega, hdig⟩

lemma keyShape_mk {y m : List Char} (hy4 : y.length = 4) (hyd : y.all Char.isDigit)
    (hm1 : 1 ≤ m.length) (hmd : m.all Char.isDigit) : KeyShape (mkKey y (zfill2 m)) :=
  ⟨y, zfill2 m, rfl, hy4, hyd, (zfill2_spec hm1 hmd).1, (zfill2_spec hm1 hmd).2⟩

lemma tryDMYAt_spec {sep : Char} {cs : List Char} {m y : List Char}
    (h : tryDMYAt sep cs = some (m, y)) :
    1 ≤ m.length ∧ m.all Char.isDigit ∧ y.length = 4 ∧ y.all Char.isDigit := by
  unfold tryDMYAt at h
  refine numThenSep_spec (P := fun q : List Char × List Char =>
    1 ≤ q.1.length ∧ q.1.all Char.isDigit ∧ q.2.length = 4 ∧ q.2.all Char.isDigit) ?_ h
  intro d rest _ _ hcall
  refine numThenSep_spec (P := fun q : List Char × List Char =>
    1 ≤ q.1.length ∧ q.1.all Char.isDigit ∧ q.2.length = 4 ∧ q.2.all Char.isDigit) ?_ hcall
  intro d2 rest2 hlen2 hdig2 hcall2
  cases h4 : takeDigits 4 rest2 with
  | some y2 =>
    rw [h4] at hcall2
    simp only [Option.some_inj, Prod.mk.injEq] at hcall2
    obtain ⟨hm, hy⟩ := hcall2
    subst hm
    subst hy
    obtain ⟨hy4, hyd⟩ := takeDigits_spec h4
    have hge : 1 ≤ d2.length := by rcases hlen2 with h1 | h1 <;> omega
    exact ⟨hge, hdig2, hy4, hyd⟩
  | none =>
    rw [h4] at hcall2
    exact absurd hcall2 (by simp)

lemma tryYMDAt_spec {sep : Char} {cs : List Char} {y m : List Char}
    (h : tryYMDAt sep cs = some (y, m)) :
    y.length = 4 ∧ y.all Char.isDigit ∧ 1 ≤ m.length ∧ m.all Char.isDigit := by
  unfold tryYMDAt at h
  cases h4 : takeDigits 4 cs with
  | some y2 =>
    rw [h4] at h
    dsimp only [] at h
    obtain ⟨hy4, hyd⟩ := takeDigits_spec h4
    split at h
    · refine numThenSep_spec (P := fun q : List Char × List Char =>
        q.1.length = 4 ∧ q.1.all Char.isDigit ∧ 1 ≤ q.2.length ∧ q.2.all Char.isDigit) ?_ h
      intro d rest hlen hdig hcall
      split at hcall
      · simp only [Option.some_inj, Prod.mk.injEq] at hcall
        obtain ⟨hy, hm⟩ := hcall
        subst hy
        subst hm
        have hge : 1 ≤ d.length := by rcases hlen with h1 | h1 <;> omega
        exact ⟨hy4, hyd, hge, hdig⟩
      · exact absurd hcall (by simp)
    · exact absurd h (by simp)
  | none =>
    rw [h4] at h
    exact absurd h (by simp)

lemma matchMYAnchored_spec {sep : Char} {cs : List Char} {m y : List Char}
    (h : matchMYAnchored sep cs = some (m, y)) :
    1 ≤ m.length ∧ m.all Char.isDigit ∧ y.length = 4 ∧ y.all Char.isDigit := by
  unfold matchMYAnchored at h
  refine numThenSep_spec (P := fun q : List Char × List Char =>
    1 ≤ q.1.length ∧ q.1.all Char.isDigit ∧ q.2.length = 4 ∧ q.2.all Char.isDigit) ?_ h
  intro d rest hlen hdig hcall
  split at hcall
  · rename_i hcond
    simp only [Option.some_inj, Prod.mk.injEq] at hcall
    obtain ⟨hm, hy⟩ := hcall
    subst hm
    subst hy
    simp only [Bool.and_eq_true, decide_eq_true_eq] at hcond
    have hge : 1 ≤ d.length := by rcases hlen with h1 | h1 <;> omega
    exact ⟨hge, hdig, hcond.1, hcond.2⟩
  · exact absurd hcall (by simp)

lemma matchYMAnchored_spec {sep : Char} {cs : List Char} {y m : List Char}
    (h : matchYMAnchored sep cs = some (y, m)) :
    y.length = 4 ∧ y.all Char.isDigit ∧ 1 ≤ m.length ∧ m.all Char.isDigit := by
  unfold matchYMAnchored at h
  cases h4 : takeDigits 4 cs with
  | some y2 =>
    rw [h4] at h
    dsimp only [] at h
    obtain ⟨hy4, hyd⟩ := takeDigits_spec h4
    split at h
    · split at h
      · rename_i hcond
        simp only [Option.some_inj, Prod.mk.injEq] at h
        obtain ⟨hy, hm⟩ := h
        subst hy
        subst hm
        simp only [Bool.and_eq_true, Bool.or_eq_true, decide_eq_true_eq] at hcond
        have hge : 1 ≤ (List.drop 5 cs).length := by rcases hcond.1 with h1 | h1 <;> omega
        exact ⟨hy4, hyd, hge, hcond.2⟩
      · exact absurd h (by simp)
    · exact absurd h (by simp)
  | none =>
    rw [h4] at h
    exact absurd h (by simp)

lemma digitRunsAux_spec :
    ∀ (cs cur : List Char), cur.all Char.isDigit →
      ∀ run ∈ digitRunsAux cur cs, run ≠ [] ∧ run.all Char.isDigit := by
  intro cs
  induction cs with
  | nil =>
    intro cur hcur run hrun
    unfold digitRunsAux at hrun
    split at hrun
    · simp at hrun
    · rename_i hne
      simp only [List.mem_singleton] at hrun
      subst hrun
      refine ⟨?_, by simpa using hcur⟩
      simpa [List.isEmpty_iff] using hne
  | cons c t ih =>
    intro cur hcur run hrun
    unfold digitRunsAux at hrun
    split at hrun
    · rename_i hdig
      exact ih (c :: cur) (by simp [hcur, hdig]) run hrun
    · split at hrun
      · exact ih [] (by simp) run hrun
      · rename_i hne
        rcases List.mem_cons.mp hrun with h1 | h1
        · subst h1
          refine ⟨?_, by simpa using hcur⟩
          simpa [List.isEmpty_iff] using hne
        · exact ih [] (by simp) run h1

lemma digitRuns_spec {cs : List Char} :
    ∀ run ∈ digitRuns cs, run ≠ [] ∧ run.all Char.isDigit :=
  digitRunsAux_spec cs [] (by simp)

lemma fallbackDigitRuns_spec {cs : List Char} {k : String}
    (h : fallbackDigitRuns cs = some k) : KeyShape k := by
  unfold fallbackDigitRuns at h
  dsimp only [] at h
  split at h
  · rename_i hlen3
    split at h
    · rename_i hcond
      simp only [Option.some_inj] at h
      subst h
      simp only [Bool.and_eq_true, decide_eq_true_eq] at hcond
      have hmlt : 1 < (digitRuns cs).length := by omega
      have hylt : 2 < (digitRuns cs).length := by omega
      have hmmem : (digitRuns cs).getD 1 [] ∈ digitRuns cs := by
        rw [List.getD_eq_getElem _ _ hmlt]
        exact List.getElem_mem hmlt
      have hymem : (digitRuns cs).getD 2 [] ∈ digitRuns cs := by
        rw [List.getD_eq_getElem _ _ hylt]
        exact List.getElem_mem hylt
      obtain ⟨hmne, hmd⟩ := digitRuns_spec _ hmmem
      obtain ⟨hyne, hyd⟩ := digitRuns_spec _ hymem
      exact keyShape_mk hcond.1.1 hyd (by cases hm : (digitRuns cs).getD 1 [] with
        | nil => exact absurd hm hmne
        | cons a b => simp [hm]) hmd
    · exact absurd h (by simp)
  · exact absurd h (by simp)

lemma searchMY_shape {f : List Char → Option (List Char × List Char)}
    (hf : ∀ (cs : List Char) (q : List Char × List Char), f cs = some q →
      1 ≤ q.1.length ∧ q.1.all Char.isDigit ∧ q.2.length = 4 ∧ q.2.all Char.isDigit)
    {cs m y : List Char} (h : searchOpt f cs = some (m, y)) :
    KeyShape (mkKey y (zfill2 m)) := by
  have hs := searchOpt_spec (P := fun q : List Char × List Char =>
    1 ≤ q.1.length ∧ q.1.all Char.isDigit ∧ q.2.length = 4 ∧ q.2.all Char.isDigit)
    hf cs (m, y) h
  exact keyShape_mk hs.2.2.1 hs.2.2.2 hs.1 hs.2.1

lemma searchYM_shape {f : List Char → Option (List Char × List Char)}
    (hf : ∀ (cs : List Char) (q : List Char × List Char), f cs = some q →
      q.1.length = 4 ∧ q.1.all Char.isDigit ∧ 1 ≤ q.2.length ∧ q.2.all Char.isDigit)
    {cs y m : List Char} (h : searchOpt f cs = some (y, m)) :
    KeyShape (mkKey y (zfill2 m)) := by
  have hs := searchOpt_spec (P := fun q : List Char × List Char =>
    q.1.length = 4 ∧ q.1.all Char.isDigit ∧ 1 ≤ q.2.length ∧ q.2.all Char.isDigit)
    hf cs (y, m) h
  exact keyShape_mk hs.1 hs.2.1 hs.2.2.1 hs.2.2.2

lemma numericDatePatterns_spec {cs : List Char} {k : String}
    (h : numericDatePatterns cs = some k) : KeyShape k := by
  unfold numericDatePatterns at h
  cases h1 : searchOpt (tryDMYAt '/') cs with
  | some q =>
    obtain ⟨m, y⟩ := q
    rw [h1] at h
    simp only [Option.some_inj] at h
    subst h
    exact searchMY_shape (fun cs2 q hr => by obtain ⟨a, b⟩ := q; exact tryDMYAt_spec hr) h1
  | none =>
  rw [h1] at h
  dsimp only [] at h
  cases h2 : searchOpt (tryDMYAt '-') cs with
  | some q =>
    obtain ⟨m, y⟩ := q
    rw [h2] at h
    simp only [Option.some_inj] at h
    subst h
    exact searchMY_shape (fun cs2 q hr => by obtain ⟨a, b⟩ := q; exact tryDMYAt_spec hr) h2
  | none =>
  rw [h2] at h
  dsimp only [] at h
  cases h3 : searchOpt (tryYMDAt '/') cs with
  | some q =>
    obtain ⟨y, m⟩ := q
    rw [h3] at h
    simp only [Option.some_inj] at h
    subst h
    exact searchYM_shape (fun cs2 q hr => by obtain ⟨a, b⟩ := q; exact tryYMDAt_spec hr) h3
  | none =>
  rw [h3] at h
  dsimp only [] at h
  cases h4 : searchOpt (tryYMDAt '-') cs with
  | some q =>
    obtain ⟨y, m⟩ := q
    rw [h4] at h
    simp only [Option.some_inj] at h
    subst h
    exact searchYM_shape (fun cs2 q hr => by obtain ⟨a, b⟩ := q; exact tryYMDAt_spec hr) h4
  | none =>
  rw [h4] at h
  dsimp only [] at h
  cases h5 : matchMYAnchored '/' cs with
  | some q =>
    obtain ⟨m, y⟩ := q
    rw [h5] at h
    simp only [Option.some_inj] at h
    subst h
    obtain ⟨ha, hb, hc, hd⟩ := matchMYAnchored_spec h5
    exact keyShape_mk hc hd ha hb
  | none =>
  rw [h5] at h
  dsimp only [] at h
  cases h6 : matchMYAnchored '-' cs with
  | some q =>
    obtain ⟨m, y⟩ := q
    rw [h6] at h
    simp only [Option.some_inj] at h
    subst h
    obtain ⟨ha, hb, hc, hd⟩ := matchMYAnchored_spec h6
    exact keyShape_mk hc hd ha hb
  | none =>
  rw [h6] at h
  dsimp only [] at h
  cases h7 : matchYMAnchored '/' cs with
  | some q =>
    obtain ⟨y, m⟩ := q
    rw [h7] at h
    simp only [Option.some_inj] at h
    subst h
    obtain ⟨ha, hb, hc, hd⟩ := matchYMAnchored_spec h7
    exact keyShape_mk ha hb hc hd
  | none =>
  rw [h7] at h
  dsimp only [] at h
  cases h8 : matchYMAnchored '-' cs with
  | some q =>
    obtain ⟨y, m⟩ := q
    rw [h8] at h
    simp only [Option.some_inj] at h
    subst h
    obtain ⟨ha, hb, hc, hd⟩ := matchYMAnchored_spec h8
    exact keyShape_mk ha hb hc hd
  | none =>
  rw [h8] at h
  dsimp only [] at h
  exact fallbackDigitRuns_spec h

lemma nameYearKey_shape {tn : List Char} {k : String}
    (h : nameYearKey tn = some k) : KeyShape k := by
  unfold nameYearKey at h
  cases h1 : searchOpt tryNameYearAt tn with
  | some q =>
    obtain ⟨mon, y⟩ := q
    rw [h1] at h
    dsimp only [] at h
    cases h2 : monKeyLookup mon with
    | some mm =>
      rw [h2] at h
      simp only [Option.map_some', Option.some_inj] at h
      subst h
      have hy := searchOpt_spec (P := fun q : List Char × List Char =>
        q.2.length = 4 ∧ q.2.all Char.isDigit)
        (fun cs2 q hr => by obtain ⟨a, b⟩ := q; exact tryNameYearAt_spec hr) tn (mon, y) h1
      obtain ⟨hm2, hmd⟩ := monKeyLookup_spec h2
      exact ⟨y, mm.toList, rfl, hy.1, hy.2, le_of_eq hm2.symm, hmd⟩
    | none =>
      rw [h2] at h
      simp at h
  | none =>
    rw [h1] at h
    exact absurd h (by simp)

lemma yearNameKey_shape {tn : List Char} {k : String}
    (h : yearNameKey tn = some k) : KeyShape k := by
  unfold yearNameKey at h
  cases h1 : searchOpt tryYearNameAt tn with
  | some q =>
    obtain ⟨y, mon⟩ := q
    rw [h1] at h
    dsimp only [] at h
    cases h2 : monKeyLookup mon with
    | some mm =>
      rw [h2] at h
      simp only [Option.map_some', Option.some_inj] at h
      subst h
      have hy := searchOpt_spec (P := fun q : List Char × List Char =>
        q.1.length = 4 ∧ q.1.all Char.isDigit)
        (fun cs2 q hr => by obtain ⟨a, b⟩ := q; exact tryYearNameAt_spec hr) tn (y, mon) h1
      obtain ⟨hm2, hmd⟩ := monKeyLookup_spec h2
      exact ⟨y, mm.toList, rfl, hy.1, hy.2, le_of_eq hm2.symm, hmd⟩
    | none =>
      rw [h2] at h
      simp at h
  | none =>
    rw [h1] at h
    exact absurd h (by simp)

lemma extract_month_year_shape {s k : String}
    (h : extract_month_year_from_date s = some k) : KeyShape k := by
  unfold extract_month_year_from_date at h
  split at h
  · exact absurd h (by simp)
  · dsimp only [] at h
    cases h1 : nameYearKey (normDate s) with
    | some k1 =>
      rw [h1] at h
      simp only [Option.some_inj] at h
      subst h
      exact nameYearKey_shape h1
    | none =>
      rw [h1] at h
      dsimp only [] at h
      cases h2 : yearNameKey (normDate s) with
      | some k2 =>
        rw [h2] at h
        simp only [Option.some_inj] at h
        subst h
        exact yearNameKey_shape h2
      | none =>
        rw [h2] at h
        dsimp only [] at h
        exact numericDatePatterns_spec h

lemma isDigit_toNat_bounds {c : Char} (h : c.isDigit = true) :
    48 ≤ c.toNat ∧ c.toNat ≤ 57 := by
  simp [Char.isDigit] at h
  exact ⟨h.1, h.2⟩

lemma char_toNat_inj {a b : Char} (h : a.toNat = b.toNat) : a = b :=
  Char.eq_of_val_eq (UInt32.toNat.inj h)

lemma natOfDigits_lt_pow {l : List Char} (h : l.all Char.isDigit = true) :
    natOfDigits l < 10 ^ l.length := by
  induction l with
  | nil => simp [natOfDigits]
  | cons c t ih =>
    simp only [List.all_cons, Bool.and_eq_true] at h
    have hc := isDigit_toNat_bounds h.1
    have ht := ih h.2
    have h9 : c.toNat - 48 ≤ 9 := by omega
    calc natOfDigits (c :: t) = (c.toNat - 48) * 10 ^ t.length + natOfDigits t := rfl
      _ ≤ 9 * 10 ^ t.length + natOfDigits t :=
          Nat.add_le_add_right (Nat.mul_le_mul_right _ h9) _
      _ < 9 * 10 ^ t.length + 10 ^ t.length := Nat.add_lt_add_left ht _
      _ = 10 ^ (t.length + 1) := by ring
      _ = 10 ^ (c :: t).length := by rfl

lemma lex_cons_iff {x y : Char} {s t : List Char} :
    List.Lex (· < ·) (x :: s) (y :: t) ↔
      x < y ∨ (x = y ∧ List.Lex (· < ·) s t) := by
  constructor
  · intro h
    cases h with
    | rel h => exact .inl h
    | cons h => exact .inr ⟨rfl, h⟩
  · intro h
    rcases h with h | ⟨rfl, h⟩
    · exact List.Lex.rel h
    · exact List.Lex.cons h

lemma base_lt_iff {a b u v p : ℕ} (hu : u < p) (hv : v < p) :
    a * p + u < b * p + v ↔ a < b ∨ (a = b ∧ u < v) := by
  constructor
  · intro h
    rcases lt_trichotomy a b with h1 | h1 | h1
    · exact .inl h1
    · subst h1
      exact .inr ⟨rfl, by omega⟩
    · exfalso
      have : b * p + v < a * p + u := by
        calc b * p + v < b * p + p := Nat.add_lt_add_left hv _
          _ = (b + 1) * p := by ring
          _ ≤ a * p := Nat.mul_le_mul_right _ h1
          _ ≤ a * p + u := Nat.le_add_right _ _
      omega
  · intro h
    rcases h with h | ⟨rfl, h⟩
    · calc a * p + u < a * p + p := Nat.add_lt_add_left hu _
        _ = (a + 1) * p := by ring
        _ ≤ b * p := Nat.mul_le_mul_right _ h
        _ ≤ b * p + v := Nat.le_add_right _ _
    · omega

lemma lex_digits_iff {s t : List Char} (hlen : s.length = t.length)
    (hs : s.all Char.isDigit = true) (ht : t.all Char.isDigit = true) :
    List.Lex (· < ·) s t ↔ natOfDigits s < natOfDigits t := by
  induction s generalizing t with
  | nil =>
    cases t with
    | nil => simp [natOfDigits]
    | cons d t => simp at hlen
  | cons c s ih =>
    cases t with
    | nil => simp at hlen
    | cons d t =>
      simp only [List.length_cons, Nat.add_right_cancel_iff] at hlen
      simp only [List.all_cons, Bool.and_eq_true] at hs ht
      have hc := isDigit_toNat_bounds hs.1
      have hd := isDigit_toNat_bounds ht.1
      rw [lex_cons_iff, ih hlen hs.2 ht.2]
      have hk1 : natOfDigits (c :: s) =
          (c.toNat - 48) * 10 ^ t.length + natOfDigits s := by
        rw [← hlen]; rfl
      have hk2 : natOfDigits (d :: t) =
          (d.toNat - 48) * 10 ^ t.length + natOfDigits t := rfl
      rw [hk1, hk2, base_lt_iff (hlen ▸ natOfDigits_lt_pow hs.2)
        (natOfDigits_lt_pow ht.2)]
      have h1 : c < d ↔ c.toNat - 48 < d.toNat - 48 := by
        show c.toNat < d.toNat ↔ _
        omega
      have h2 : c = d ↔ c.toNat - 48 = d.toNat - 48 := by
        constructor
        · intro h; rw [h]
        · intro h; exact char_toNat_inj (by omega)
      rw [h1, h2]

lemma lex_append_iff {r1 r2 y1 y2 : List Char} (hlen : y1.length = y2.length) :
    List.Lex (· < ·) (y1 ++ r1) (y2 ++ r2) ↔
      List.Lex (· < ·) y1 y2 ∨ (y1 = y2 ∧ List.Lex (· < ·) r1 r2) := by
  induction y1 generalizing y2 with
  | nil =>
    cases y2 with
    | nil => simp [List.Lex.not_nil_right]
    | cons d t => simp at hlen
  | cons c s ih =>
    cases y2 with
    | nil => simp at hlen
    | cons d t =>
      simp only [List.length_cons, Nat.add_right_cancel_iff] at hlen
      simp only [List.cons_append, lex_cons_iff, ih hlen, List.cons.injEq]
      tauto

lemma natOfDigits_inj {s t : List Char} (hlen : s.length = t.length)
    (hs : s.all Char.isDigit = true) (ht : t.all Char.isDigit = true)
    (h : natOfDigits s = natOfDigits t) : s = t := by
  rcases lt_trichotomy s t with h1 | h1 | h1
  · exact absurd ((lex_digits_iff hlen hs ht).mp h1) (by omega)
  · exact h1
  · exact absurd ((lex_digits_iff hlen.symm ht hs).mp h1) (by omega)

lemma mkKey_lt_iff {y1 m1 y2 m2 : List Char}
    (hy1 : y1.length = 4) (hy2 : y2.length = 4)
    (hm1 : m1.length = 2) (hm2 : m2.length = 2)
    (hd1 : y1.all Char.isDigit = true) (hd2 : y2.all Char.isDigit = true)
    (he1 : m1.all Char.isDigit = true) (he2 : m2.all Char.isDigit = true) :
    mkKey y1 m1 < mkKey y2 m2 ↔
      natOfDigits y1 < natOfDigits y2 ∨
        (natOfDigits y1 = natOfDigits y2 ∧ natOfDigits m1 < natOfDigits m2) := by
  rw [String.lt_iff_toList_lt]
  show List.Lex (· < ·) (y1 ++ '-' :: m1) (y2 ++ '-' :: m2) ↔ _
  rw [lex_append_iff (hy1.trans hy2.symm), lex_cons_iff]
  have hdash : ¬ ('-' : Char) < '-' := by decide
  have hyiff := lex_digits_iff (hy1.trans hy2.symm) hd1 hd2
  have hmiff := lex_digits_iff (hm1.trans hm2.symm) he1 he2
  constructor
  · intro h
    rcases h with h | ⟨hy, h⟩
    · exact .inl (hyiff.mp h)
    · rcases h with h | ⟨_, h⟩
      · exact absurd h hdash
      · exact .inr ⟨by rw [hy], hmiff.mp h⟩
  · intro h
    rcases h with h | ⟨hy, h⟩
    · exact .inl (hyiff.mpr h)
    · exact .inr ⟨natOfDigits_inj (hy1.trans hy2.symm) hd1 hd2 hy,
        .inr ⟨rfl, hmiff.mpr h⟩⟩

/-- C10: amended form of the month-key invariant. Every key produced by the
date normalizer is a 4-digit all-digit year, a dash, and an all-digit month
segment of at least 2 characters (KeyShape); and for any two keys whose month
segments have exactly 2 digits, lexicographic string comparison coincides with
chronological order, that is with numeric comparison of the (year, month)
pair. The original claim is stronger and false: the numeric day-month-year
paths never validate the month against 1..12 (so "15/13/2025" yields key
"2025-13"), and the digit-run fallback keeps months of 3 or more digits
unpadded (so "15 007 2025" yields "2025-007", which sorts before "2025-01"
although July is after January); see the counterexample. -/
theorem C10_month_key_shape_order :
    (∀ s k, extract_month_year_from_date s = some k → KeyShape k) ∧
    (∀ y1 m1 y2 m2 : List Char,
      y1.length = 4 → y2.length = 4 → m1.length = 2 → m2.length = 2 →
      y1.all Char.isDigit = true → y2.all Char.isDigit = true →
      m1.all Char.isDigit = true → m2.all Char.isDigit = true →
      (mkKey y1 m1 < mkKey y2 m2 ↔
        natOfDigits y1 < natOfDigits y2 ∨
          (natOfDigits y1 = natOfDigits y2 ∧
            natOfDigits m1 < natOfDigits m2))) :=
  ⟨fun _ _ h => extract_month_year_shape h,
   fun _ _ _ _ h1 h2 h3 h4 h5 h6 h7 h8 =>
     mkKey_lt_iff h1 h2 h3 h4 h5 h6 h7 h8⟩

/-- Witness for C10 at concrete inputs: the key extracted from "15/07/2025"
has the canonical shape, and the ordering equivalence holds for the concrete
keys "2025-07" and "2026-01". -/
theorem C10_month_key_shape_order_witness :
    KeyShape ("2025-07") ∧
    (mkKey (['2','0','2','5']) (['0','7']) < mkKey (['2','0','2','6']) (['0','1']) ↔
      natOfDigits (['2','0','2','5']) < natOfDigits (['2','0','2','6']) ∨
        (natOfDigits (['2','0','2','5']) = natOfDigits (['2','0','2','6']) ∧
          natOfDigits (['0','7']) < natOfDigits (['0','1']))) :=
  ⟨C10_month_key_shape_order.1 ("15/07/2025") ("2025-07") (by decide),
   C10_month_key_shape_order.2 (['2','0','2','5']) (['0','7'])
     (['2','0','2','6']) (['0','1']) (by decide) (by decide) (by decide)
     (by decide) (by decide) (by decide) (by decide) (by decide)⟩

/-- C10 counterexample to the original claim: the date normalizer produces
the key "2025-13" (month 13, outside 01..12) from "15/13/2025", and the
digit-run fallback produces the unpadded key "2025-007" from "15 007 2025";
that key compares lexicographically below "2025-01" although its month,
7 (July), comes chronologically after month 1 (January), so string order
differs from chronological order on produced keys. -/
theorem C10_counterexample :
    extract_month_year_from_date ("15/13/2025") = some ("2025-13") ∧
    12 < natOfDigits (['1','3']) ∧
    extract_month_year_from_date ("15 007 2025") = some ("2025-007") ∧
    extract_month_year_from_date ("20/01/2025") = some ("2025-01") ∧
    ("2025-007" : String) < ("2025-01" : String) ∧
    natOfDigits (['0','1']) < natOfDigits (['0','0','7']) := by
  refine ⟨by decide, by decide, by decide, by decide, ?_, by decide⟩
  apply String.lt_iff_toList_lt.mpr
  show List.Lex (· < ·) (['2','0','2','5','-','0','0','7'])
    (['2','0','2','5','-','0','1'])
  exact List.Lex.cons (List.Lex.cons (List.Lex.cons (List.Lex.cons (List.Lex.cons
    (List.Lex.cons (List.Lex.rel (by decide)))))))
